import Mathlib

/-!
Verification model of the Azure-DevOps work-item replication engine
(`scripts/copy_parent_workitems_with_children.py`).

Python strings are embedded as Lean `String` (a wrapper around `List Char`),
and the Python helpers (`str.split`, `str.join`, `str.lower`, `str.strip`,
`int(...)`) are given explicit executable definitions over the character data.
The replication engine (`main`) is embedded as explicit state passing over a
target-system state (a correlation map plus a fresh-id counter) together with
a trace of the remote mutation calls it would issue.
-/

namespace AdoCopy

/-- The backslash character, the only path delimiter used by `remap_root`
(Python `src_path.split("\x5c\x5c")` splits on a single backslash). -/
def bsChar : Char := '\\'

/-- A one-character string holding the backslash, used when joining path
segments back together. -/
def bsStr : String := String.mk [bsChar]

/-- Python `s.lower()`, character by character over the string data. -/
def pyLower (s : String) : String := String.mk (s.data.map Char.toLower)

/-- Python `s.strip()`: drop whitespace from both ends. -/
def pyStrip (s : String) : String :=
  String.mk (((s.data.dropWhile Char.isWhitespace).reverse.dropWhile Char.isWhitespace).reverse)

/-- Python `s.split("\x5c")`: split the character data on the backslash.
For a non-empty separator Python never returns an empty list, and neither
does `List.splitOn`. -/
def pySplitBS (s : String) : List String := (s.data.splitOn bsChar).map String.mk

/-- Python `"\x5c".join(parts)`. -/
def pyJoinBS (parts : List String) : String :=
  String.mk ([bsChar].intercalate (parts.map String.data))

/-- Python truthiness of an optional string (`None` and `""` are falsy). -/
def pyTruthy : Option String → Bool
  | none => false
  | some s => !(s == "")

/-- `remap_root` from the script (lines 220-228): translate an area or
iteration path from the source root segment to the target root segment.
`None` and `""` inputs yield the bare target root; otherwise the path is
split on backslashes, the first segment is replaced by the target root when
it equals the source root case-insensitively, and otherwise the target root
is prepended in front of the whole path. -/
def remap_root (src_path : Option String) (src_root tgt_root : String) : String :=
  match src_path with
  | none => tgt_root
  | some p =>
    if p == "" then tgt_root
    else
      match pySplitBS p with
      | [] => pyJoinBS [tgt_root]
      | p0 :: rest =>
        if pyLower p0 == pyLower src_root then pyJoinBS (tgt_root :: rest)
        else pyJoinBS (tgt_root :: p0 :: rest)

example : remap_root (some "SrcProj\\TeamA") "SrcProj" "TgtProj" = "TgtProj\\TeamA" := by decide
example : remap_root (some "Other\\TeamA") "SrcProj" "TgtProj" = "TgtProj\\Other\\TeamA" := by decide
example : remap_root none "SrcProj" "TgtProj" = "TgtProj" := by decide
example : remap_root (some "") "SrcProj" "TgtProj" = "TgtProj" := by decide
example : remap_root (some "a/b") "SrcProj" "TgtProj" = "TgtProj\\a/b" := by decide

/-- Two strings with the same character data are equal. -/
theorem string_ext {a b : String} (h : a.data = b.data) : a = b := by
  cases a; cases b; simp_all

theorem pyJoinBS_single (a : String) : pyJoinBS [a] = a := by
  apply string_ext
  simp [pyJoinBS, List.intercalate]

theorem pyJoinBS_cons (a : String) (l : List String) (h : l ≠ []) :
    pyJoinBS (a :: l) = a ++ bsStr ++ pyJoinBS l := by
  apply string_ext
  obtain ⟨b, m, rfl⟩ := List.exists_cons_of_ne_nil h
  simp [pyJoinBS, List.intercalate, List.intersperse_cons_cons, bsStr, String.data_append]

theorem pySplitBS_ne_nil (p : String) : pySplitBS p ≠ [] := by
  simp only [pySplitBS, List.splitOn, ne_eq, List.map_eq_nil_iff]
  exact List.splitOnP_ne_nil _ _

/-- Joining the backslash-split segments of a path recovers the path. -/
theorem pyJoinBS_pySplitBS (p : String) : pyJoinBS (pySplitBS p) = p := by
  apply string_ext
  simp only [pyJoinBS, pySplitBS, List.map_map]
  rw [show String.data ∘ String.mk = id from rfl, List.map_id]
  exact List.intercalate_splitOn p.data bsChar

/-- When the path contains no backslash, splitting yields the whole path as
the single segment. -/
theorem pySplitBS_eq_single (p : String) (hbs : bsChar ∉ p.data) : pySplitBS p = [p] := by
  simp only [pySplitBS, List.splitOn]
  rw [List.splitOnP_eq_single]
  · rfl
  · intro x hx
    simp only [beq_iff_eq]
    exact fun hxe => hbs (hxe ▸ hx)

/-- Case analysis of `remap_root` on a non-empty path whose split is known. -/
theorem remap_root_eq_of_split (p sr tr : String) (hp : ¬p = "") (p0 : String)
    (rest : List String) (hsp : pySplitBS p = p0 :: rest) :
    remap_root (some p) sr tr =
      if pyLower p0 == pyLower sr then pyJoinBS (tr :: rest)
      else pyJoinBS (tr :: p0 :: rest) := by
  simp [remap_root, hsp, hp]

/-- C6: path-remapping totality and postcondition. For every input path
(including absent and empty) and every root pair, `remap_root` returns a
string beginning with the target root segment; an absent or empty path gives
the bare target root; otherwise the path splits as a head segment plus the
remaining segments, the original path is the join of these segments, and the
result replaces exactly the head segment by the target root when the head
matches the source root case-insensitively, while a non-matching path is
nested whole one level under the target root, never dropped. -/
theorem remap_root_total_spec (sp : Option String) (sr tr : String) :
    tr.data <+: (remap_root sp sr tr).data ∧
    ((sp = none ∨ sp = some "") → remap_root sp sr tr = tr) ∧
    (∀ p, sp = some p → ¬p = "" →
      ∃ p0 rest, pySplitBS p = p0 :: rest ∧ p = pyJoinBS (p0 :: rest) ∧
        (pyLower p0 = pyLower sr → remap_root sp sr tr = pyJoinBS (tr :: rest)) ∧
        (¬pyLower p0 = pyLower sr → remap_root sp sr tr = tr ++ bsStr ++ p)) := by
  have hjoin_prefix : ∀ l : List String, tr.data <+: (pyJoinBS (tr :: l)).data := by
    intro l
    cases l with
    | nil => simp [pyJoinBS_single]
    | cons b m =>
      rw [pyJoinBS_cons _ _ (by simp)]
      simp only [String.data_append, List.append_assoc]
      exact List.prefix_append _ _
  match sp with
  | none =>
    refine ⟨List.prefix_rfl, fun _ => rfl, fun p hp => by cases hp⟩
  | some p =>
    by_cases hp : p = ""
    · subst hp
      refine ⟨?_, fun _ => rfl, fun q hq hq' => by cases hq; exact absurd rfl hq'⟩
      simp only [remap_root, show ("" == "") = true from rfl, if_true]
      exact List.prefix_rfl
    · obtain ⟨p0, rest, hsp⟩ : ∃ p0 rest, pySplitBS p = p0 :: rest := by
        cases h : pySplitBS p with
        | nil => exact absurd h (pySplitBS_ne_nil p)
        | cons a l => exact ⟨a, l, rfl⟩
      have hr := remap_root_eq_of_split p sr tr hp p0 rest hsp
      have hback : p = pyJoinBS (p0 :: rest) := by rw [← hsp, pyJoinBS_pySplitBS]
      refine ⟨?_, fun h => by rcases h with h | h <;> simp_all, ?_⟩
      · rw [hr]
        by_cases hm : pyLower p0 = pyLower sr
        · simp only [hm, beq_self_eq_true, if_true]
          exact hjoin_prefix rest
        · rw [if_neg (by simpa using hm)]
          exact hjoin_prefix (p0 :: rest)
      · intro q hq hq'
        cases hq
        refine ⟨p0, rest, hsp, hback, ?_, ?_⟩
        · intro hm
          rw [hr, if_pos (by simpa using hm)]
        · intro hm
          rw [hr, if_neg (by simpa using hm), hback]
          exact (pyJoinBS_cons tr (p0 :: rest) (by simp)).trans rfl

/-- Witness for C6 at concrete inputs: a matching path has its root segment
replaced and a non-matching path is nested under the target root. -/
theorem remap_root_total_spec_witness :
    "TgtProj".data <+: (remap_root (some "SrcProj\\TeamA") "SrcProj" "TgtProj").data ∧
    remap_root (some "SrcProj\\TeamA") "SrcProj" "TgtProj" = pyJoinBS ["TgtProj", "TeamA"] ∧
    remap_root (some "Other\\TeamA") "SrcProj" "TgtProj" = "TgtProj" ++ bsStr ++ "Other\\TeamA" := by
  refine ⟨(remap_root_total_spec (some "SrcProj\\TeamA") "SrcProj" "TgtProj").1, ?_, ?_⟩
  · obtain ⟨p0, rest, hsp, -, hm, -⟩ :=
      (remap_root_total_spec (some "SrcProj\\TeamA") "SrcProj" "TgtProj").2.2
        "SrcProj\\TeamA" rfl (by decide)
    have h0 : p0 = "SrcProj" ∧ rest = ["TeamA"] := by
      have : pySplitBS "SrcProj\\TeamA" = ["SrcProj", "TeamA"] := by decide
      rw [this] at hsp
      exact ⟨(List.cons.injEq _ _ _ _ ▸ hsp).1.symm, ((List.cons.injEq _ _ _ _ ▸ hsp).2).symm⟩
    rw [h0.1, h0.2] at hm
    exact hm (by decide)
  · obtain ⟨p0, rest, hsp, -, -, hnm⟩ :=
      (remap_root_total_spec (some "Other\\TeamA") "SrcProj" "TgtProj").2.2
        "Other\\TeamA" rfl (by decide)
    have h0 : p0 = "Other" := by
      have : pySplitBS "Other\\TeamA" = ["Other", "TeamA"] := by decide
      rw [this] at hsp
      exact ((List.cons.injEq _ _ _ _ ▸ hsp).1).symm
    exact hnm (by rw [h0]; decide)

/-- C8: `remap_root` splits only on backslashes, so a backslash-free path
(in particular one using forward slashes) is one single segment: unless it
equals the source root case-insensitively as a whole, the entire path is
nested as one segment under the target root with its forward slashes intact,
and when it does equal the source root the result is the bare target root. -/
theorem remap_root_no_backslash (p sr tr : String) (hp : ¬p = "") (hbs : bsChar ∉ p.data) :
    (¬pyLower p = pyLower sr → remap_root (some p) sr tr = tr ++ bsStr ++ p) ∧
    (pyLower p = pyLower sr → remap_root (some p) sr tr = tr) := by
  have hr := remap_root_eq_of_split p sr tr hp p [] (pySplitBS_eq_single p hbs)
  constructor
  · intro hm
    rw [hr, if_neg (by simpa using hm), pyJoinBS_cons tr [p] (by simp), pyJoinBS_single]
  · intro hm
    rw [hr, if_pos (by simpa using hm), pyJoinBS_single]

/-- Witness for C8 at a concrete slash-delimited path. -/
theorem remap_root_no_backslash_witness :
    remap_root (some "SrcProj/TeamA") "SrcProj" "TgtProj" = "TgtProj" ++ bsStr ++ "SrcProj/TeamA" ∧
    remap_root (some "srcproj") "SrcProj" "TgtProj" = "TgtProj" := by
  constructor
  · exact (remap_root_no_backslash "SrcProj/TeamA" "SrcProj" "TgtProj"
      (by decide) (by decide)).1 (by decide)
  · exact (remap_root_no_backslash "srcproj" "SrcProj" "TgtProj"
      (by decide) (by decide)).2 (by decide)

/-- Value of a decimal digit character. -/
def digitVal (c : Char) : Nat := c.toNat - '0'.toNat

/-- Decimal value of a digit string. -/
def digitsVal (l : List Char) : Nat := l.foldl (fun a c => a * 10 + digitVal c) 0

/-- Python `int(s)` on a string: strip surrounding whitespace, allow an
optional sign followed by at least one decimal digit, and fail (raise, here
`none`) on anything else. -/
def pyInt? (s : String) : Option Int :=
  match ((s.data.dropWhile Char.isWhitespace).reverse.dropWhile Char.isWhitespace).reverse with
  | [] => none
  | c :: rest =>
    if c = '-' then
      if !rest.isEmpty && rest.all Char.isDigit then some (-(digitsVal rest : Int)) else none
    else if c = '+' then
      if !rest.isEmpty && rest.all Char.isDigit then some ((digitsVal rest : Int)) else none
    else if (c :: rest).all Char.isDigit then some ((digitsVal (c :: rest) : Int)) else none

example : pyInt? "123" = some 123 := by decide
example : pyInt? " -42 " = some (-42) := by decide
example : pyInt? "abc" = none := by decide
example : pyInt? "" = none := by decide

/-- Python `href.rsplit("/", 1)[-1]`: the substring after the last forward
slash, or the whole string when it has no slash. -/
def lastSegment (s : String) : String := String.mk ((s.data.splitOn '/').getLastD s.data)

example : lastSegment "http://host/_apis/wit/workItems/42" = "42" := by decide
example : lastSegment "plain" = "plain" := by decide

/-- Python `pat in s` (substring containment). -/
def strContainsSub (s pat : String) : Bool :=
  (List.range (s.data.length + 1)).any (fun i => pat.data.isPrefixOf (s.data.drop i))

/-- Python `s.endswith(pat)`. -/
def strEndsWithPy (s pat : String) : Bool := pat.data.isSuffixOf s.data

/-- One relation record of a source work item, as returned with
`$expand=relations`: a relation-type string and a URL, each possibly absent. -/
structure Rel where
  rel : Option String
  url : Option String
deriving DecidableEq

/-- One iteration of the relation-classification loop of
`get_children_related` (lines 147-157): parse the linked id from the URL's
last path segment, skip the relation if that fails, and otherwise add the id
to the children set when the lowercased relation type contains
"hierarchy-forward", or to the related set when it ends with "related". -/
def relStep (acc : List Int × List Int) (r : Rel) : List Int × List Int :=
  match pyInt? (lastSegment (r.url.getD "")) with
  | none => acc
  | some wid =>
    if strContainsSub (pyLower (r.rel.getD "")) "hierarchy-forward" then
      (if acc.1.contains wid then acc.1 else acc.1 ++ [wid], acc.2)
    else if strEndsWithPy (pyLower (r.rel.getD "")) "related" then
      (acc.1, if acc.2.contains wid then acc.2 else acc.2 ++ [wid])
    else acc

/-- `get_children_related` (lines 143-159) over a work item's relation list:
classify every relation into children and related ids, then subtract the
children from the related set (`related -= children`). Python's sets are
modelled as insertion-ordered duplicate-free lists. -/
def get_children_related (rels : List Rel) : List Int × List Int :=
  let cr := rels.foldl relStep ([], [])
  (cr.1, cr.2.filter (fun x => !cr.1.contains x))

example :
    get_children_related
      [{ rel := some "System.LinkTypes.Hierarchy-Forward", url := some "h/101" },
       { rel := some "System.LinkTypes.Related", url := some "h/102" },
       { rel := some "System.LinkTypes.Related", url := some "h/101" }] = ([101], [102]) := by
  decide

/-- C5: hierarchy precedence. The partition returned by
`get_children_related` is disjoint: every id in the related component is
absent from the children component, even when the source records both a
hierarchy-forward and a related edge to the same id. -/
theorem get_children_related_disjoint (rels : List Rel) :
    ((get_children_related rels).2).all
      (fun x => !((get_children_related rels).1).contains x) = true := by
  unfold get_children_related
  simp only [List.all_eq_true]
  intro x hx
  simpa using (List.mem_filter.mp hx).2

/-- A relation whose URL's last segment does not parse as an integer leaves
the classification accumulator unchanged. -/
theorem relStep_malformed (acc : List Int × List Int) (r : Rel)
    (h : pyInt? (lastSegment (r.url.getD "")) = none) : relStep acc r = acc := by
  unfold relStep
  rw [h]

/-- C10: totality over malformed relation data. A relation whose URL's last
path segment does not parse as an integer is silently skipped: removing it
from the relation list does not change the children/related classification,
so it lands in neither set and no error is raised. -/
theorem get_children_related_skips_malformed (pre post : List Rel) (r : Rel)
    (h : pyInt? (lastSegment (r.url.getD "")) = none) :
    get_children_related (pre ++ r :: post) = get_children_related (pre ++ post) := by
  unfold get_children_related
  rw [List.foldl_append, List.foldl_cons, relStep_malformed _ _ h, ← List.foldl_append]

/-- Witness for C10: a related URL ending in a non-numeric segment is
skipped. -/
theorem get_children_related_skips_malformed_witness :
    get_children_related
      ([{ rel := some "System.LinkTypes.Hierarchy-Forward", url := some "h/101" }] ++
        { rel := some "System.LinkTypes.Related", url := some "h/attachments" } ::
        [{ rel := some "System.LinkTypes.Related", url := some "h/102" }]) =
    get_children_related
      ([{ rel := some "System.LinkTypes.Hierarchy-Forward", url := some "h/101" }] ++
        [{ rel := some "System.LinkTypes.Related", url := some "h/102" }]) :=
  get_children_related_skips_malformed _ _ _ (by decide)

/-- The field subset of a source work item that the script reads. A `none`
models a field that is absent from the JSON field map (Azure DevOps omits
empty fields), so Python `f.get(key)` yields `None` exactly on `none`. -/
structure SrcFields where
  workItemType : Option String
  title : Option String
  description : Option String
  tags : Option String
  areaPath : Option String
  iterationPath : Option String
deriving DecidableEq

/-- A source work item: its id, its fields, its relation records (as fetched
with `$expand=relations`), its comment texts (as returned by
`get_comments`), and any extra fields referenced by the owner-org exclusion
clause. -/
structure SrcItem where
  id : Int
  fields : SrcFields
  relations : List Rel
  comments : List String
  extra : List (String × String)
deriving DecidableEq

/-- `PARENT_TYPES` from the script (line 31). -/
def PARENT_TYPES : List String := ["Work Bundle", "Workbundle", "WorkBundle"]

/-- The WIQL `WHERE` clause of `iterate_parent_ids` (lines 123-130) without
the id bound: the work-item type is in `PARENT_TYPES`, and when both the
exclusion field and value are truthy, the item's value for that field
differs from the excluded value. -/
def parentPred (exF exV : Option String) (it : SrcItem) : Bool :=
  PARENT_TYPES.contains (it.fields.workItemType.getD "") &&
    (if pyTruthy exF && pyTruthy exV then
      !(it.extra.lookup (exF.getD "") == some (exV.getD "")) else true)

/-- The ids of the source items matching the parent query. -/
def matchingIds (src : List SrcItem) (exF exV : Option String) : List Int :=
  (src.filter (parentPred exF exV)).map (fun it => it.id)

/-- The matching ids in ascending order, as the WIQL `ORDER BY [System.Id]
ASC` returns them. -/
def matchingIdsSorted (src : List SrcItem) (exF exV : Option String) : List Int :=
  (matchingIds src exF exV).insertionSort (· ≤ ·)

/-- One WIQL page: the first `P` matching ids strictly above `lastId`, in
ascending order. The query service is an external collaborator; per the spec
it returns result sets bounded by a practical page size `P`. -/
def wiqlPage (P : Nat) (sorted : List Int) (lastId : Int) : List Int :=
  (sorted.filter (fun i => decide (lastId < i))).take P

/-- Python `if max_items and fetched >= max_items` (line 139): the cutoff
fires only when `max_items` is truthy (non-`None` and non-zero) and the
fetched count has reached it. -/
def maxReached (max? : Option Int) (fetched : Nat) : Bool :=
  match max? with
  | none => false
  | some m => !(m == 0) && decide ((fetched : Int) ≥ m)

/-- The inner `for wid in page` loop of `iterate_parent_ids` (lines
135-140): yield each id, remember it as the last id, count it, and return
early when the maximum is reached. Results: yielded ids, new last id, new
fetched count, and whether the generator returned early. -/
def consumePage (max? : Option Int) : List Int → Int → Nat → List Int × Int × Nat × Bool
  | [], lastId, fetched => ([], lastId, fetched, false)
  | wid :: rest, _, fetched =>
    if maxReached max? (fetched + 1) then ([wid], wid, fetched + 1, true)
    else
      let r := consumePage max? rest wid (fetched + 1)
      (wid :: r.1, r.2.1, r.2.2.1, r.2.2.2)

/-- The outer `while True` loop of `iterate_parent_ids` (lines 122-140):
fetch a page of ids above the last seen id, stop on an empty page, otherwise
yield the page and continue. `fuel` bounds the number of outer iterations;
`src.length + 1` is always enough (each non-empty page strictly raises the
last seen id past at least one matching id). -/
def iterLoop (P : Nat) (sorted : List Int) (max? : Option Int) : Nat → Int → Nat → List Int
  | 0, _, _ => []
  | fuel + 1, lastId, fetched =>
    let page := wiqlPage P sorted lastId
    if page.isEmpty then []
    else
      let r := consumePage max? page lastId fetched
      if r.2.2.2 then r.1
      else r.1 ++ iterLoop P sorted max? fuel r.2.1 r.2.2.1

/-- Python `last_id = (start_id - 1) if (start_id and start_id > 0) else 0`
(line 116). -/
def startLastId (start? : Option Int) : Int :=
  match start? with
  | none => 0
  | some s => if s > 0 then s - 1 else 0

/-- `iterate_parent_ids` (lines 114-140), with the WIQL service modelled as
`wiqlPage` over the sorted matching ids and a page size `P`. -/
def iterate_parent_ids (P : Nat) (src : List SrcItem) (max? start? : Option Int)
    (exF exV : Option String) : List Int :=
  iterLoop P (matchingIdsSorted src exF exV) max? (src.length + 1) (startLastId start?) 0

/-- A source work item of the parent type with the given id, used in
concrete witnesses. -/
def wbItem (i : Int) : SrcItem :=
  { id := i
    fields := { workItemType := some "Work Bundle", title := some "B", description := none,
                tags := none, areaPath := none, iterationPath := none }
    relations := [], comments := [], extra := [] }

example : iterate_parent_ids 2 [wbItem 5, wbItem 3, wbItem 9] none none none none = [3, 5, 9] := by
  decide
example : iterate_parent_ids 2 [wbItem 5, wbItem 3, wbItem 9] (some 2) none none none = [3, 5] := by
  decide
example : iterate_parent_ids 2 [wbItem 5, wbItem 3, wbItem 9] none (some 5) none none = [5, 9] := by
  decide

theorem getLastD_mem_of_ne_nil {α : Type} {l : List α} (h : l ≠ []) (d : α) :
    l.getLastD d ∈ l := by
  induction l generalizing d with
  | nil => exact absurd rfl h
  | cons a t ih =>
    rw [List.getLastD_cons]
    cases t with
    | nil => simp
    | cons b u => exact List.mem_cons_of_mem _ (ih (by simp) a)

theorem consumePage_mem (max? : Option Int) (p : List Int) (l : Int) (f : Nat) :
    ∀ y ∈ (consumePage max? p l f).1, y ∈ p := by
  induction p generalizing l f with
  | nil => simp [consumePage]
  | cons wid rest ih =>
    intro y hy
    simp only [consumePage] at hy
    cases hmr : maxReached max? (f + 1) with
    | true =>
      rw [hmr] at hy
      simp at hy
      simp [hy]
    | false =>
      rw [hmr] at hy
      simp only [Bool.false_eq_true, if_false, List.mem_cons] at hy
      rcases hy with h | h
      · simp [h]
      · exact List.mem_cons_of_mem _ (ih wid (f + 1) y h)

theorem consumePage_ne_nil (max? : Option Int) (p : List Int) (l : Int) (f : Nat)
    (h : p ≠ []) : (consumePage max? p l f).1 ≠ [] := by
  cases p with
  | nil => exact absurd rfl h
  | cons wid rest =>
    simp only [consumePage]
    cases hmr : maxReached max? (f + 1) <;> simp

theorem consumePage_lastId (max? : Option Int) (p : List Int) (l : Int) (f : Nat) :
    (consumePage max? p l f).2.1 = (consumePage max? p l f).1.getLastD l := by
  induction p generalizing l f with
  | nil => simp [consumePage]
  | cons wid rest ih =>
    simp only [consumePage]
    cases hmr : maxReached max? (f + 1) with
    | true => simp
    | false =>
      simp only [Bool.false_eq_true, if_false]
      show (consumePage max? rest wid (f + 1)).2.1 =
        (wid :: (consumePage max? rest wid (f + 1)).1).getLastD l
      rw [List.getLastD_cons]
      exact ih wid (f + 1)

theorem consumePage_fetched (max? : Option Int) (p : List Int) (l : Int) (f : Nat) :
    (consumePage max? p l f).2.2.1 = f + (consumePage max? p l f).1.length := by
  induction p generalizing l f with
  | nil => simp [consumePage]
  | cons wid rest ih =>
    simp only [consumePage]
    cases hmr : maxReached max? (f + 1) with
    | true => simp
    | false =>
      have := ih wid (f + 1)
      simp only [Bool.false_eq_true, if_false, List.length_cons]
      omega

theorem consumePage_noMax (max? : Option Int) (hmax : ∀ f, maxReached max? f = false)
    (p : List Int) (l : Int) (f : Nat) :
    consumePage max? p l f = (p, p.getLastD l, f + p.length, false) := by
  induction p generalizing l f with
  | nil => simp [consumePage]
  | cons wid rest ih =>
    simp only [consumePage, hmax, Bool.false_eq_true, if_false, ih wid (f + 1),
      List.getLastD_cons, List.length_cons]
    refine Prod.ext rfl (Prod.ext rfl (Prod.ext ?_ rfl))
    simp
    omega

theorem wiqlPage_mem_gt (P : Nat) (sorted : List Int) (l : Int) :
    ∀ y ∈ wiqlPage P sorted l, l < y := by
  intro y hy
  have hy' : y ∈ sorted.filter (fun i => decide (l < i)) :=
    List.mem_of_mem_take hy
  simpa using (List.mem_filter.mp hy').2

theorem iterLoop_mem_gt (P : Nat) (sorted : List Int) (max? : Option Int) :
    ∀ (fuel : Nat) (lastId : Int) (fetched : Nat) (x : Int),
      x ∈ iterLoop P sorted max? fuel lastId fetched → lastId < x := by
  intro fuel
  induction fuel with
  | zero => intro l f x hx; simp [iterLoop] at hx
  | succ n ih =>
    intro l f x hx
    simp only [iterLoop] at hx
    by_cases hpe : (wiqlPage P sorted l).isEmpty
    · rw [if_pos hpe] at hx; simp at hx
    · rw [if_neg hpe] at hx
      have hpage := wiqlPage_mem_gt P sorted l
      have hpne : wiqlPage P sorted l ≠ [] := fun h => hpe (by simp [h])
      cases hflag : (consumePage max? (wiqlPage P sorted l) l f).2.2.2 with
      | true =>
        rw [hflag] at hx
        simp only [if_true] at hx
        exact hpage x (consumePage_mem _ _ _ _ x hx)
      | false =>
        rw [hflag] at hx
        simp only [Bool.false_eq_true, if_false, List.mem_append] at hx
        rcases hx with h | h
        · exact hpage x (consumePage_mem _ _ _ _ x h)
        · have hlast : (consumePage max? (wiqlPage P sorted l) l f).2.1 ∈ wiqlPage P sorted l := by
            rw [consumePage_lastId]
            exact consumePage_mem _ _ _ _ _
              (getLastD_mem_of_ne_nil (consumePage_ne_nil _ _ _ _ hpne) l)
          exact lt_trans (hpage _ hlast) (ih _ _ x h)

theorem consumePage_max_bound (m : Int) (p : List Int) (l : Int) (f : Nat)
    (hm : 0 < m) (hf : (f : Int) < m) :
    ((consumePage (some m) p l f).1.length : Int) + f ≤ m ∧
      ((consumePage (some m) p l f).2.2.2 = false →
        ((consumePage (some m) p l f).2.2.1 : Int) < m) := by
  induction p generalizing l f with
  | nil =>
    simp only [consumePage, List.length_nil]
    exact ⟨by omega, fun _ => by simpa using hf⟩
  | cons wid rest ih =>
    simp only [consumePage]
    cases hmr : maxReached (some m) (f + 1) with
    | true =>
      rw [if_pos rfl]
      exact ⟨by show ((1 : Nat) : Int) + (f : Int) ≤ m; omega, fun h => Bool.noConfusion h⟩
    | false =>
      have hf1 : ((f + 1 : Nat) : Int) < m := by
        have h := hmr
        simp only [maxReached, Bool.and_eq_false_iff] at h
        rcases h with h | h
        · have h0 : m = 0 := by simpa using h
          omega
        · have h0 : ¬((f : Int) + 1 ≥ m) := by simpa using h
          omega
      have := ih wid (f + 1) hf1
      simp only [Bool.false_eq_true, if_false, List.length_cons]
      constructor
      · push_cast
        push_cast at this
        omega
      · exact this.2

theorem iterLoop_max_bound (P : Nat) (sorted : List Int) (m : Int) (hm : 0 < m) :
    ∀ (fuel : Nat) (l : Int) (f : Nat), (f : Int) < m →
      ((iterLoop P sorted (some m) fuel l f).length : Int) + f ≤ m := by
  intro fuel
  induction fuel with
  | zero => intro l f hf; simp only [iterLoop, List.length_nil]; omega
  | succ n ih =>
    intro l f hf
    simp only [iterLoop]
    by_cases hpe : (wiqlPage P sorted l).isEmpty
    · rw [if_pos hpe]; simp only [List.length_nil]; omega
    · rw [if_neg hpe]
      have hcp := consumePage_max_bound m (wiqlPage P sorted l) l f hm hf
      cases hflag : (consumePage (some m) (wiqlPage P sorted l) l f).2.2.2 with
      | true =>
        rw [if_pos rfl]
        simpa using hcp.1
      | false =>
        rw [if_neg (by simp)]
        simp only [List.length_append]
        have hfetch := consumePage_fetched (some m) (wiqlPage P sorted l) l f
        have hrec := ih (consumePage (some m) (wiqlPage P sorted l) l f).2.1
          (consumePage (some m) (wiqlPage P sorted l) l f).2.2.1 (hcp.2 hflag)
        push_cast
        push_cast at hrec hcp
        omega

theorem consumePage_congr_max (m1 m2 : Option Int)
    (h : ∀ f, maxReached m1 f = maxReached m2 f) :
    ∀ (p : List Int) (l : Int) (f : Nat), consumePage m1 p l f = consumePage m2 p l f := by
  intro p
  induction p with
  | nil => intro l f; simp [consumePage]
  | cons wid rest ih =>
    intro l f
    simp only [consumePage, h, ih wid (f + 1)]

theorem iterLoop_congr_max (P : Nat) (sorted : List Int) (m1 m2 : Option Int)
    (h : ∀ f, maxReached m1 f = maxReached m2 f) :
    ∀ (fuel : Nat) (l : Int) (f : Nat),
      iterLoop P sorted m1 fuel l f = iterLoop P sorted m2 fuel l f := by
  intro fuel
  induction fuel with
  | zero => intro l f; simp [iterLoop]
  | succ n ih =>
    intro l f
    simp only [iterLoop, consumePage_congr_max m1 m2 h, ih]

theorem pairwise_le_getLastD {l : List Int} (h : List.Pairwise (· < ·) l) (d : Int) :
    ∀ x ∈ l, x ≤ l.getLastD d := by
  induction l generalizing d with
  | nil => simp
  | cons a t ih =>
    intro x hx
    rw [List.getLastD_cons]
    rcases List.mem_cons.mp hx with rfl | hxt
    · cases t with
      | nil => simp
      | cons b u =>
        have hlt : ∀ y ∈ b :: u, x < y := (List.pairwise_cons.mp h).1
        exact le_of_lt (hlt _ (getLastD_mem_of_ne_nil (by simp) x))
    · exact ih (List.pairwise_cons.mp h).2 a x hxt

theorem filter_gt_last_of_sorted (sorted : List Int) (hs : List.Pairwise (· < ·) sorted)
    (l : Int) (P : Nat) (hne : wiqlPage P sorted l ≠ []) :
    sorted.filter (fun x => decide ((wiqlPage P sorted l).getLastD l < x)) =
      (sorted.filter (fun x => decide (l < x))).drop P := by
  set F := sorted.filter (fun x => decide (l < x)) with hF
  set page := wiqlPage P sorted l with hpage
  have hpageF : page = F.take P := rfl
  set last := page.getLastD l with hlast
  have hlast_mem : last ∈ page := getLastD_mem_of_ne_nil hne l
  have hlast_gt : l < last := by
    have := List.mem_filter.mp (List.mem_of_mem_take (hpageF ▸ hlast_mem))
    simpa using this.2
  have hFpw : List.Pairwise (· < ·) F := hs.filter _
  have hsplit : page ++ F.drop P = F := hpageF ▸ List.take_append_drop P F
  have hpw_append : List.Pairwise (· < ·) (page ++ F.drop P) := by rw [hsplit]; exact hFpw
  obtain ⟨hpw_page, -, hcross⟩ := List.pairwise_append.mp hpw_append
  have hstep1 : sorted.filter (fun x => decide (last < x)) =
      F.filter (fun x => decide (last < x)) := by
    rw [hF, List.filter_filter]
    refine List.filter_congr ?_
    intro x _
    by_cases hx : last < x
    · have : l < x := lt_trans hlast_gt hx
      simp [hx, this]
    · simp [hx]
  have h1 : page.filter (fun x => decide (last < x)) = [] := by
    rw [List.filter_eq_nil_iff]
    intro a ha
    have : a ≤ last := pairwise_le_getLastD hpw_page l a ha
    simp
    omega
  have h2 : (F.drop P).filter (fun x => decide (last < x)) = F.drop P := by
    rw [List.filter_eq_self]
    intro a ha
    have : last < a := hcross last hlast_mem a ha
    simpa using this
  have hstep2 : F.filter (fun x => decide (last < x)) = F.drop P := by
    conv_lhs => rw [← hsplit]
    rw [List.filter_append, h1, h2, List.nil_append]
  calc sorted.filter (fun x => decide (page.getLastD l < x))
      = F.filter (fun x => decide (last < x)) := hstep1
    _ = F.drop P := hstep2

theorem iterLoop_full (P : Nat) (hP : 1 ≤ P) (sorted : List Int)
    (hs : List.Pairwise (· < ·) sorted) (max? : Option Int)
    (hmax : ∀ f, maxReached max? f = false) :
    ∀ (fuel : Nat) (lastId : Int) (f : Nat),
      (sorted.filter (fun x => decide (lastId < x))).length < fuel →
      iterLoop P sorted max? fuel lastId f = sorted.filter (fun x => decide (lastId < x)) := by
  intro fuel
  induction fuel with
  | zero => intro l f hlen; omega
  | succ n ih =>
    intro l f hlen
    simp only [iterLoop]
    by_cases hpe : (wiqlPage P sorted l).isEmpty
    · rw [if_pos hpe]
      have : wiqlPage P sorted l = [] := List.isEmpty_iff.mp hpe
      rcases List.take_eq_nil_iff.mp this with h | h
      · omega
      · exact h.symm
    · rw [if_neg hpe]
      have hpne : wiqlPage P sorted l ≠ [] := fun h => hpe (by simp [h])
      rw [consumePage_noMax max? hmax]
      simp only [Bool.false_eq_true, if_false]
      have hdrop := filter_gt_last_of_sorted sorted hs l P hpne
      have hFne : sorted.filter (fun x => decide (l < x)) ≠ [] := by
        intro h
        apply hpne
        simp only [wiqlPage, h, List.take_nil]
      have hFlen : 1 ≤ (sorted.filter (fun x => decide (l < x))).length :=
        List.length_pos.mpr hFne
      have hrec := ih ((wiqlPage P sorted l).getLastD l) (f + (wiqlPage P sorted l).length) ?_
      · rw [hrec, hdrop]
        exact List.take_append_drop P _
      · rw [hdrop]
        have := List.length_drop P (sorted.filter (fun x => decide (l < x)))
        omega

theorem matchingIdsSorted_pairwise_lt (src : List SrcItem) (exF exV : Option String)
    (h : (matchingIds src exF exV).Nodup) :
    List.Pairwise (· < ·) (matchingIdsSorted src exF exV) := by
  have hperm := List.perm_insertionSort (fun a b : Int => a ≤ b) (matchingIds src exF exV)
  have hnd : (matchingIdsSorted src exF exV).Nodup := hperm.nodup_iff.mpr h
  exact (List.sorted_insertionSort (fun a b : Int => a ≤ b) (matchingIds src exF exV)).lt_of_le hnd

theorem matchingIdsSorted_length_le (src : List SrcItem) (exF exV : Option String) :
    (matchingIdsSorted src exF exV).length ≤ src.length := by
  have hperm := List.perm_insertionSort (fun a b : Int => a ≤ b) (matchingIds src exF exV)
  unfold matchingIdsSorted
  rw [hperm.length_eq]
  simp only [matchingIds, List.length_map]
  exact List.length_filter_le _ _

/-- C3 counterexample: with starting id 5 and a source item of id 5, the
enumerator re-yields 5 itself, which is not strictly greater than 5, so the
starting id is not an exclusive lower bound (the code subtracts one before
applying the strict WIQL bound, making it inclusive). -/
theorem iterate_start_exclusive_counterexample :
    5 ∈ iterate_parent_ids 10 [wbItem 5] none (some 5) none none ∧ ¬(5 : Int) < 5 := by
  decide

/-- C3 (amended): the optional starting id is an INCLUSIVE lower bound: for
every starting id s > 0, every yielded id is at least s, and (for a
non-trivial page size, duplicate-free source ids and no maximum) the yield
is exactly the ascending matching ids that are greater than or equal to s.
Resuming without repetition therefore requires last-seen id + 1, not the
last-seen id itself. -/
theorem iterate_parent_ids_start_inclusive (P : Nat) (src : List SrcItem)
    (max? : Option Int) (s : Int) (exF exV : Option String) (hs : 0 < s) :
    (∀ x ∈ iterate_parent_ids P src max? (some s) exF exV, s ≤ x) ∧
    (1 ≤ P → (matchingIds src exF exV).Nodup → max? = none →
      iterate_parent_ids P src max? (some s) exF exV =
        (matchingIdsSorted src exF exV).filter (fun x => decide (s ≤ x))) := by
  have hstart : startLastId (some s) = s - 1 := by
    simp only [startLastId]
    rw [if_pos hs]
  constructor
  · intro x hx
    simp only [iterate_parent_ids] at hx
    have := iterLoop_mem_gt P (matchingIdsSorted src exF exV) max? (src.length + 1)
      (startLastId (some s)) 0 x hx
    rw [hstart] at this
    omega
  · intro hP hnd hmax
    subst hmax
    unfold iterate_parent_ids
    rw [hstart]
    have hfuel : (((matchingIdsSorted src exF exV).filter
        (fun x => decide (s - 1 < x))).length) < src.length + 1 := by
      have h1 := List.length_filter_le (fun x => decide (s - 1 < x))
        (matchingIdsSorted src exF exV)
      have h2 := matchingIdsSorted_length_le src exF exV
      omega
    rw [iterLoop_full P hP (matchingIdsSorted src exF exV)
      (matchingIdsSorted_pairwise_lt src exF exV hnd) none (fun _ => rfl)
      (src.length + 1) (s - 1) 0 hfuel]
    refine List.filter_congr ?_
    intro x _
    exact decide_eq_decide.mpr (by omega)

/-- Witness for the amended C3 at page size 1: starting at id 5, the run
yields exactly the matching ids at least 5 (re-including 5). -/
theorem iterate_parent_ids_start_inclusive_witness :
    (∀ x ∈ iterate_parent_ids 1 [wbItem 9, wbItem 5] none (some 5) none none, (5 : Int) ≤ x) ∧
    iterate_parent_ids 1 [wbItem 9, wbItem 5] none (some 5) none none =
      (matchingIdsSorted [wbItem 9, wbItem 5] none none).filter
        (fun x => decide ((5 : Int) ≤ x)) := by
  have h := iterate_parent_ids_start_inclusive 1 [wbItem 9, wbItem 5] none 5 none none
    (by decide)
  exact ⟨h.1, h.2 (by decide) (by decide) rfl⟩

/-- C9: falsy defaults of `iterate_parent_ids`. A maximum of 0 behaves like
no maximum; a zero or negative starting id behaves like no starting id (for
non-positive s the computed lower bound is 0, same as for `None`); with a
positive maximum m at most m ids are yielded; and with no maximum the
enumeration is unlimited: it yields every matching id above the lower bound
(for a non-trivial page size and duplicate-free source ids). -/
theorem iterate_parent_ids_falsy_defaults (P : Nat) (src : List SrcItem)
    (start? : Option Int) (exF exV : Option String) :
    (iterate_parent_ids P src (some 0) start? exF exV
        = iterate_parent_ids P src none start? exF exV) ∧
    (∀ s : Int, s ≤ 0 → ∀ max? : Option Int,
      iterate_parent_ids P src max? (some s) exF exV
        = iterate_parent_ids P src max? none exF exV) ∧
    (∀ m : Int, 0 < m →
      ((iterate_parent_ids P src (some m) start? exF exV).length : Int) ≤ m) ∧
    (1 ≤ P → (matchingIds src exF exV).Nodup →
      iterate_parent_ids P src none start? exF exV =
        (matchingIdsSorted src exF exV).filter
          (fun x => decide (startLastId start? < x))) := by
  refine ⟨?_, ?_, ?_, ?_⟩
  · unfold iterate_parent_ids
    exact iterLoop_congr_max _ _ _ _ (fun f => by simp [maxReached]) _ _ _
  · intro s hs max?
    unfold iterate_parent_ids
    have h0 : startLastId (some s) = startLastId none := by
      simp only [startLastId]
      rw [if_neg (by omega)]
    rw [h0]
  · intro m hm
    have hb := iterLoop_max_bound P (matchingIdsSorted src exF exV) m hm (src.length + 1)
      (startLastId start?) 0 (by simpa using hm)
    unfold iterate_parent_ids
    omega
  · intro hP hnd
    unfold iterate_parent_ids
    refine iterLoop_full P hP _ (matchingIdsSorted_pairwise_lt src exF exV hnd) none
      (fun _ => rfl) _ _ 0 ?_
    have h1 := List.length_filter_le (fun x => decide (startLastId start? < x))
      (matchingIdsSorted src exF exV)
    have h2 := matchingIdsSorted_length_le src exF exV
    omega

/-- Witness for C9 at concrete inputs: max 0 equals no max, start -1 equals
no start, max 1 yields at most one id, and no max yields all matching ids. -/
theorem iterate_parent_ids_falsy_defaults_witness :
    (iterate_parent_ids 2 [wbItem 5, wbItem 3] (some 0) none none none
        = iterate_parent_ids 2 [wbItem 5, wbItem 3] none none none none) ∧
    (iterate_parent_ids 2 [wbItem 5, wbItem 3] none (some (-1)) none none
        = iterate_parent_ids 2 [wbItem 5, wbItem 3] none none none none) ∧
    (((iterate_parent_ids 2 [wbItem 5, wbItem 3] (some 1) none none none).length : Int) ≤ 1) ∧
    (iterate_parent_ids 2 [wbItem 5, wbItem 3] none none none none =
      (matchingIdsSorted [wbItem 5, wbItem 3] none none).filter
        (fun x => decide (startLastId none < x))) := by
  have h := iterate_parent_ids_falsy_defaults 2 [wbItem 5, wbItem 3] none none none
  exact ⟨h.1, h.2.1 (-1) (by decide) none, h.2.2.1 1 (by decide), h.2.2.2 (by decide) (by decide)⟩

/-- The target system state that the engine's decisions depend on: the
correlation map from source id (the value stored in the reflected-id field
at creation) to target id, and the next target id the system will assign.
`find_target_by_reflected` compares the reflected field, stored as
`str(source_id)`, against `str(sid)`; since `toString` is injective on
integers the map is keyed by the integer id directly. -/
structure TgtState where
  corr : List (Int × Int)
  nextId : Int
deriving DecidableEq

/-- One JSON-patch operation of a work-item create or update call. -/
inductive PatchOp where
  | addField (path : String) (value : String)
  | addRelation (rel : String) (url : String)
deriving DecidableEq

/-- One remote mutation call: a work-item creation (`create_work_item`) or a
work-item patch (`http_patch_workitem`, used for history notes and related
links). GET-style calls are not mutations and are not traced. -/
inductive Mut where
  | createWI (typeName : String) (ops : List PatchOp)
  | patchWI (tid : Int) (ops : List PatchOp)
deriving DecidableEq

/-- The configuration of one engine run: the parsed CLI arguments plus the
derived roots (`area_root`, `iter_root` after the empty-fallback to the
target project) and the connection names used to build URLs. -/
structure Args where
  dryRun : Bool
  withComments : Bool
  forceRoot : Bool
  maxItems : Option Int
  startId : Option Int
  excludeField : Option String
  excludeValue : Option String
  areaRoot : String
  iterRoot : String
  srcProject : String
  tgtOrgUrl : String
  tgtProject : String
deriving DecidableEq

/-- The running state of `main`'s loop: target-system state, the three
progress counters (lines 261, 289, 331, 364, 368), and the ordered trace of
mutation calls issued so far. -/
structure EngineSt where
  tgt : TgtState
  createdParent : Nat
  createdOther : Nat
  relatedLinks : Nat
  trace : List Mut
deriving DecidableEq

/-- `REFLECTED` (line 27). -/
def REFLECTED : String := "Custom.ReflectedWorkItemId"

/-- `TARGET_PARENT_TYPE` (line 32). -/
def TARGET_PARENT_TYPE : String := "Work Bundle"

/-- `CHILD_TYPE_MAP` (line 34). -/
def CHILD_TYPE_MAP : List (String × String) :=
  [("User Story", "User Story"), ("Issue", "User Story")]

/-- `CHILD_TYPE_MAP_LOWER` (line 35). -/
def CHILD_TYPE_MAP_LOWER : List (String × String) :=
  CHILD_TYPE_MAP.map (fun kv => (pyLower kv.1, kv.2))

/-- `find_target_by_reflected` (lines 104-111): the WIQL lookup of a target
item whose reflected-id field equals the source id, returning the first
match. -/
def find_target_by_reflected (ts : TgtState) (sid : Int) : Option Int := ts.corr.lookup sid

/-- A target work-item URL, as interpolated at lines 88 and 163. -/
def witUrl (orgUrl project : String) (tid : Int) : String :=
  orgUrl ++ "/" ++ project ++ "/_apis/wit/workItems/" ++ toString tid

/-- The JSON patch built by `create_work_item` (lines 83-91): one add-field
op per field whose value is not `None`, plus a hierarchy-reverse relation op
when a parent id is supplied. -/
def create_patch (fields : List (String × Option String)) (parentUrl : Option String) :
    List PatchOp :=
  fields.filterMap (fun kv => kv.2.map (fun v => PatchOp.addField ("/fields/" ++ kv.1) v)) ++
    (match parentUrl with
     | some u => [PatchOp.addRelation "System.LinkTypes.Hierarchy-Reverse" u]
     | none => [])

/-- Effect of a successful creation on the target system: the new item
carries the reflected id `sid`, so the correlation map gains one entry and
the created id is returned. -/
def createTarget (ts : TgtState) (sid : Int) : TgtState × Int :=
  ({ corr := ts.corr ++ [(sid, ts.nextId)], nextId := ts.nextId + 1 }, ts.nextId)

/-- The field map built for a creation, identical for parents (lines
271-282), children (lines 318-325) and related items (lines 351-358): title
with the `Migrated {id}` fallback when the source title key is absent,
description and tags coerced to the empty string, the reflected id, and the
area and iteration paths (forced to the roots or remapped). -/
def mk_copy_fields (args : Args) (sid : Int) (f : SrcFields) : List (String × Option String) :=
  [("System.Title", some (f.title.getD ("Migrated " ++ toString sid))),
   ("System.Description", some (f.description.getD "")),
   ("System.Tags", some (f.tags.getD "")),
   (REFLECTED, some (toString sid)),
   ("System.AreaPath", some (if args.forceRoot then args.areaRoot
      else remap_root f.areaPath args.srcProject args.areaRoot)),
   ("System.IterationPath", some (if args.forceRoot then args.iterRoot
      else remap_root f.iterationPath args.srcProject args.iterRoot))]

/-- `batch_get` of a single id (lines 264-267, 305-308, 340-343): the item's
data, or nothing when the id is unknown (the loop then continues). -/
def srcFind (src : List SrcItem) (i : Int) : Option SrcItem :=
  src.find? (fun it => it.id == i)

/-- The comment-migration loop (lines 295-299 and 332-336): one
`push_history` patch per non-empty comment text. -/
def pushAllComments (st : EngineSt) (tid : Int) (texts : List String) : EngineSt :=
  texts.foldl (fun s txt =>
    if txt == "" then s
    else { s with trace :=
      s.trace ++ [Mut.patchWI tid [PatchOp.addField "/fields/System.History" txt]] }) st

/-- Source type extraction and mapping shared by the children and related
loops (lines 309-310 and 344-345): strip the type name, lowercase it and
look it up in `CHILD_TYPE_MAP_LOWER`. -/
def typeMapped (f : SrcFields) : Option String :=
  CHILD_TYPE_MAP_LOWER.lookup (pyLower (pyStrip (f.workItemType.getD "")))

/-- One iteration of the children loop of `main` (lines 304-336): skip when
the source item is missing or its type unmapped (`if not tgt_type:
continue`), otherwise resolve or create the target child (linking it under
the target parent at creation when the parent id is positive), and finally
migrate comments when enabled and not a dry run. -/
def processChild (args : Args) (src : List SrcItem) (tgtParent : Int) (st : EngineSt)
    (cid : Int) : EngineSt :=
  match srcFind src cid with
  | none => st
  | some c =>
    match typeMapped c.fields with
    | none => st
    | some tgtType =>
      if tgtType == "" then st
      else
        let res : EngineSt × Int :=
          match find_target_by_reflected st.tgt cid with
          | some existing => (st, existing)
          | none =>
            if args.dryRun then ({ st with createdOther := st.createdOther + 1 }, -1)
            else
              let cr := createTarget st.tgt cid
              let parentUrl := if 0 < tgtParent then
                  some (witUrl args.tgtOrgUrl args.tgtProject tgtParent) else none
              ({ st with tgt := cr.1,
                         createdOther := st.createdOther + 1,
                         trace := st.trace ++ [Mut.createWI tgtType
                           (create_patch (mk_copy_fields args cid c.fields) parentUrl)] }, cr.2)
        if args.withComments && !args.dryRun && decide (0 < res.2) then
          pushAllComments res.1 res.2 c.comments
        else res.1

/-- One iteration of the related loop of `main` (lines 339-368): skip when
the source item is missing or its type unmapped, otherwise resolve or
create the target counterpart (without a parent link), then, for a real run
with both target ids positive, add one related-link patch and count it. -/
def processRelated (args : Args) (src : List SrcItem) (tgtParent : Int) (st : EngineSt)
    (rid : Int) : EngineSt :=
  match srcFind src rid with
  | none => st
  | some r =>
    match typeMapped r.fields with
    | none => st
    | some tgtType =>
      if tgtType == "" then st
      else
        let res : EngineSt × Int :=
          match find_target_by_reflected st.tgt rid with
          | some existing => (st, existing)
          | none =>
            if args.dryRun then ({ st with createdOther := st.createdOther + 1 }, -1)
            else
              let cr := createTarget st.tgt rid
              ({ st with tgt := cr.1,
                         createdOther := st.createdOther + 1,
                         trace := st.trace ++ [Mut.createWI tgtType
                           (create_patch (mk_copy_fields args rid r.fields) none)] }, cr.2)
        if !args.dryRun && decide (0 < tgtParent) && decide (0 < res.2) then
          { res.1 with
              relatedLinks := res.1.relatedLinks + 1,
              trace := res.1.trace ++ [Mut.patchWI tgtParent
                [PatchOp.addRelation "System.LinkTypes.Related"
                  (witUrl args.tgtOrgUrl args.tgtProject res.2)]] }
        else res.1

/-- One iteration of `main`'s outer loop over a parent id (lines 263-368):
fetch the parent (skip when missing), resolve or create the target parent
(dry run returns the sentinel -1), optionally migrate its comments, then
classify its relations and run the children and related loops. -/
def processParent (args : Args) (src : List SrcItem) (st : EngineSt) (pid : Int) : EngineSt :=
  match srcFind src pid with
  | none => st
  | some p =>
    let res : EngineSt × Int :=
      match find_target_by_reflected st.tgt pid with
      | some existing => (st, existing)
      | none =>
        if args.dryRun then ({ st with createdParent := st.createdParent + 1 }, -1)
        else
          let cr := createTarget st.tgt pid
          ({ st with tgt := cr.1,
                     createdParent := st.createdParent + 1,
                     trace := st.trace ++ [Mut.createWI TARGET_PARENT_TYPE
                       (create_patch (mk_copy_fields args pid p.fields) none)] }, cr.2)
    let st2 := if args.withComments && !args.dryRun && decide (0 < res.2)
               then pushAllComments res.1 res.2 p.comments else res.1
    let st3 := (get_children_related p.relations).1.foldl (processChild args src res.2) st2
    (get_children_related p.relations).2.foldl (processRelated args src res.2) st3

/-- The initial loop state of `main` (line 261): zero counters and no
mutations issued. -/
def initSt (t0 : TgtState) : EngineSt :=
  { tgt := t0, createdParent := 0, createdOther := 0, relatedLinks := 0, trace := [] }

/-- The whole engine run of `main` (lines 263-368): fold the per-parent step
over the enumerated parent ids. The enumeration depends only on the source
system, which the engine never mutates, so the lazily interleaved generator
of the script equals this pre-computed fold. -/
def runEngine (P : Nat) (args : Args) (src : List SrcItem) (t0 : TgtState) : EngineSt :=
  (iterate_parent_ids P src args.maxItems args.startId
      args.excludeField args.excludeValue).foldl
    (processParent args src) (initSt t0)

/-- A concrete non-dry configuration used by witnesses. -/
def argsReal : Args :=
  { dryRun := false, withComments := false, forceRoot := false, maxItems := none,
    startId := none, excludeField := none, excludeValue := none, areaRoot := "TgtProj",
    iterRoot := "TgtProj", srcProject := "SrcProj", tgtOrgUrl := "https://tgt",
    tgtProject := "TgtProj" }

/-- The spec's concrete scenario: root 100 (Work Bundle) with child 101
(User Story) and related 102 (Issue). -/
def srcScenario : List SrcItem :=
  [{ id := 100
     fields := { workItemType := some "Work Bundle", title := some "Bundle",
                 description := some "d", tags := none,
                 areaPath := some "SrcProj\\TeamA", iterationPath := none }
     relations := [{ rel := some "System.LinkTypes.Hierarchy-Forward", url := some "u/101" },
                   { rel := some "System.LinkTypes.Related", url := some "u/102" }]
     comments := [], extra := [] },
   { id := 101
     fields := { workItemType := some "User Story", title := some "S", description := none,
                 tags := none, areaPath := none, iterationPath := none }
     relations := [], comments := [], extra := [] },
   { id := 102
     fields := { workItemType := some "Issue", title := none, description := none,
                 tags := none, areaPath := none, iterationPath := none }
     relations := [], comments := [], extra := [] }]

example :
    (runEngine 10 argsReal srcScenario { corr := [], nextId := 1000 }).createdParent = 1 ∧
    (runEngine 10 argsReal srcScenario { corr := [], nextId := 1000 }).createdOther = 2 ∧
    (runEngine 10 argsReal srcScenario { corr := [], nextId := 1000 }).relatedLinks = 1 ∧
    (runEngine 10 argsReal srcScenario { corr := [], nextId := 1000 }).tgt.corr =
      [(100, 1000), (101, 1001), (102, 1002)] := by decide

/-- C4 counterexample: a source item with an absent description still gets a
`System.Description` add-field op with the empty string in the creation
patch; empty/absent description and tags are written as empty values, not
omitted. -/
theorem upsert_field_omission_counterexample :
    PatchOp.addField "/fields/System.Description" "" ∈
      create_patch (mk_copy_fields argsReal 7
        { workItemType := some "Issue", title := none, description := none, tags := none,
          areaPath := none, iterationPath := none }) none := by
  decide

theorem create_patch_filter_isSome (fl : List (String × Option String)) (pu : Option String) :
    create_patch fl pu = create_patch (fl.filter (fun kv => kv.2.isSome)) pu := by
  unfold create_patch
  congr 1
  induction fl with
  | nil => rfl
  | cons kv rest ih =>
    match kv with
    | (k, none) => simpa using ih
    | (k, some v) => simpa using ih

/-- C4 (amended): in `create_work_item` a field is omitted from the creation
patch exactly when its computed value is `None`; the engine coerces
description and tags with `or \x22\x22`, so an empty or absent description or
tag value is written as an empty string rather than omitted; the title is
always written, and an absent source title yields the synthesized fallback
`Migrated {source id}`. -/
theorem upsert_fields_spec (args : Args) (sid : Int) (f : SrcFields) :
    (PatchOp.addField "/fields/System.Title" (f.title.getD ("Migrated " ++ toString sid)) ∈
      create_patch (mk_copy_fields args sid f) none) ∧
    (f.title = none → PatchOp.addField "/fields/System.Title" ("Migrated " ++ toString sid) ∈
      create_patch (mk_copy_fields args sid f) none) ∧
    (PatchOp.addField "/fields/System.Description" (f.description.getD "") ∈
      create_patch (mk_copy_fields args sid f) none) ∧
    (PatchOp.addField "/fields/System.Tags" (f.tags.getD "") ∈
      create_patch (mk_copy_fields args sid f) none) ∧
    (PatchOp.addField ("/fields/" ++ REFLECTED) (toString sid) ∈
      create_patch (mk_copy_fields args sid f) none) ∧
    (∀ (fl : List (String × Option String)) (pu : Option String),
      create_patch fl pu = create_patch (fl.filter (fun kv => kv.2.isSome)) pu) := by
  refine ⟨?_, ?_, ?_, ?_, ?_, create_patch_filter_isSome⟩ <;>
    simp [create_patch, mk_copy_fields]
  intro ht
  rw [ht]
  simp

/-- Witness for the amended C4: at a concrete source item with absent title,
description and tags, the patch contains the synthesized title and the
empty-string description and tags. -/
theorem upsert_fields_spec_witness :
    (PatchOp.addField "/fields/System.Title" ("Migrated " ++ toString (7 : Int)) ∈
      create_patch (mk_copy_fields argsReal 7
        { workItemType := some "Issue", title := none, description := none, tags := none,
          areaPath := none, iterationPath := none }) none) ∧
    (PatchOp.addField "/fields/System.Tags" "" ∈
      create_patch (mk_copy_fields argsReal 7
        { workItemType := some "Issue", title := none, description := none, tags := none,
          areaPath := none, iterationPath := none }) none) := by
  have h := upsert_fields_spec argsReal 7
    { workItemType := some "Issue", title := none, description := none, tags := none,
      areaPath := none, iterationPath := none }
  exact ⟨h.2.1 rfl, h.2.2.2.1⟩

/-- C7: type filtering. A linked entity (processed by the children loop or
the related loop) whose source type has no entry in the case-insensitive
type map is skipped entirely: the engine state is returned unchanged, so
nothing is created, no hierarchy or related link is added, and no error or
counter is recorded, under any configuration. -/
theorem unmapped_type_skipped (args : Args) (src : List SrcItem) (tgtParent : Int)
    (st : EngineSt) (i : Int) (c : SrcItem) (hfind : srcFind src i = some c)
    (hmap : typeMapped c.fields = none) :
    processChild args src tgtParent st i = st ∧ processRelated args src tgtParent st i = st := by
  simp only [processChild, processRelated, hfind, hmap]
  exact ⟨trivial, trivial⟩

/-- A source work item of an unmapped type, used in concrete witnesses. -/
def bugItem (i : Int) : SrcItem :=
  { id := i
    fields := { workItemType := some "Bug", title := some "x", description := none,
                tags := none, areaPath := none, iterationPath := none }
    relations := [], comments := [], extra := [] }

/-- Witness for C7: a linked item of type Bug is skipped by both loops. -/
theorem unmapped_type_skipped_witness :
    processChild argsReal [bugItem 7] 1 (initSt { corr := [], nextId := 1 }) 7 =
      initSt { corr := [], nextId := 1 } ∧
    processRelated argsReal [bugItem 7] 1 (initSt { corr := [], nextId := 1 }) 7 =
      initSt { corr := [], nextId := 1 } :=
  unmapped_type_skipped argsReal [bugItem 7] 1 (initSt { corr := [], nextId := 1 }) 7
    (bugItem 7) (by decide) (by decide)

/-- The source ids recorded in a correlation list. -/
def keys (l : List (Int × Int)) : List Int := l.map Prod.fst

theorem lookup_eq_none_of_not_mem_keys {e : List (Int × Int)} {k : Int}
    (h : k ∉ keys e) : e.lookup k = none := by
  induction e with
  | nil => rfl
  | cons kv t ih =>
    obtain ⟨a, b⟩ := kv
    simp only [keys, List.map_cons, List.mem_cons] at h
    push_neg at h
    simp only [List.lookup]
    rw [show (k == a) = false by simpa using h.1]
    exact ih (by simpa [keys] using h.2)

theorem lookup_append_some {l e : List (Int × Int)} {k : Int} {v : Int}
    (h : l.lookup k = some v) : (l ++ e).lookup k = some v := by
  rw [List.lookup_append, h]
  rfl

theorem lookup_append_isSome {l e : List (Int × Int)} {k : Int}
    (h : (l.lookup k).isSome = true) : ((l ++ e).lookup k).isSome = true := by
  obtain ⟨v, hv⟩ := Option.isSome_iff_exists.mp h
  rw [lookup_append_some hv]
  rfl

theorem lookup_append_of_not_mem_keys {l e : List (Int × Int)} {k : Int}
    (h : k ∉ keys e) : (l ++ e).lookup k = l.lookup k := by
  rw [List.lookup_append, lookup_eq_none_of_not_mem_keys h]
  cases l.lookup k <;> rfl

theorem tgtState_ext {a b : TgtState} (hc : a.corr = b.corr) (hn : a.nextId = b.nextId) :
    a = b := by
  cases a; cases b; simp_all

theorem pushAllComments_proj (tid : Int) (texts : List String) (st : EngineSt) :
    (pushAllComments st tid texts).tgt = st.tgt ∧
    (pushAllComments st tid texts).createdParent = st.createdParent ∧
    (pushAllComments st tid texts).createdOther = st.createdOther ∧
    (pushAllComments st tid texts).relatedLinks = st.relatedLinks := by
  induction texts generalizing st with
  | nil => exact ⟨rfl, rfl, rfl, rfl⟩
  | cons txt rest ih =>
    by_cases h : txt = ""
    · simpa [pushAllComments, h] using ih st
    · simpa [pushAllComments, h] using
        ih { st with trace := st.trace ++ [Mut.patchWI tid
          [PatchOp.addField "/fields/System.History" txt]] }

theorem pushAllComments_tgt (tid : Int) (texts : List String) (st : EngineSt) :
    (pushAllComments st tid texts).tgt = st.tgt := (pushAllComments_proj tid texts st).1

theorem pushAllComments_createdParent (tid : Int) (texts : List String) (st : EngineSt) :
    (pushAllComments st tid texts).createdParent = st.createdParent :=
  (pushAllComments_proj tid texts st).2.1

theorem pushAllComments_createdOther (tid : Int) (texts : List String) (st : EngineSt) :
    (pushAllComments st tid texts).createdOther = st.createdOther :=
  (pushAllComments_proj tid texts st).2.2.1

theorem ifPush_tgt (g : Prop) [Decidable g] (st : EngineSt) (tid : Int) (texts : List String) :
    (if g then pushAllComments st tid texts else st).tgt = st.tgt := by
  split
  · exact pushAllComments_tgt tid texts st
  · rfl

theorem ifPush_createdParent (g : Prop) [Decidable g] (st : EngineSt) (tid : Int)
    (texts : List String) :
    (if g then pushAllComments st tid texts else st).createdParent = st.createdParent := by
  split
  · exact pushAllComments_createdParent tid texts st
  · rfl

theorem ifPush_createdOther (g : Prop) [Decidable g] (st : EngineSt) (tid : Int)
    (texts : List String) :
    (if g then pushAllComments st tid texts else st).createdOther = st.createdOther := by
  split
  · exact pushAllComments_createdOther tid texts st
  · rfl

theorem ifRec_tgt (g : Prop) [Decidable g] (st : EngineSt) (rl : Nat) (tr : List Mut) :
    (if g then { st with relatedLinks := rl, trace := tr } else st).tgt = st.tgt := by
  split <;> rfl

theorem ifRec_createdParent (g : Prop) [Decidable g] (st : EngineSt) (rl : Nat)
    (tr : List Mut) :
    (if g then { st with relatedLinks := rl, trace := tr } else st).createdParent =
      st.createdParent := by
  split <;> rfl

theorem ifRec_createdOther (g : Prop) [Decidable g] (st : EngineSt) (rl : Nat)
    (tr : List Mut) :
    (if g then { st with relatedLinks := rl, trace := tr } else st).createdOther =
      st.createdOther := by
  split <;> rfl

/-- Whether a linked id would pass the presence and type-mapping gates of
the children/related loops (lines 305-312 and 340-347). -/
def mappedPresent (src : List SrcItem) (i : Int) : Bool :=
  match srcFind src i with
  | none => false
  | some c =>
    match typeMapped c.fields with
    | none => false
    | some t => !(t == "")

/-- Whether processing id `i` against correlation state `corr` takes the
create branch: the item is present with a mapped type and the correlation
lookup finds nothing. -/
def upsertNeeded (src : List SrcItem) (corr : List (Int × Int)) (i : Int) : Bool :=
  mappedPresent src i && !(corr.lookup i).isSome

/-- Projections of one children-loop step: the correlation map gains exactly
one entry (and the fresh-id counter advances) precisely on a real-run create
branch, the created-other counter counts exactly the create branches, the
created-parent counter is untouched, and in a dry run the whole state is
unchanged except for the created-other bump. -/
theorem processChild_proj (args : Args) (src : List SrcItem) (tp : Int) (st : EngineSt)
    (cid : Int) :
    ((processChild args src tp st cid).tgt.corr =
      if !args.dryRun && upsertNeeded src st.tgt.corr cid then
        st.tgt.corr ++ [(cid, st.tgt.nextId)] else st.tgt.corr) ∧
    ((processChild args src tp st cid).tgt.nextId =
      if !args.dryRun && upsertNeeded src st.tgt.corr cid then
        st.tgt.nextId + 1 else st.tgt.nextId) ∧
    ((processChild args src tp st cid).createdOther =
      st.createdOther + (if upsertNeeded src st.tgt.corr cid then 1 else 0)) ∧
    ((processChild args src tp st cid).createdParent = st.createdParent) ∧
    (args.dryRun = true → processChild args src tp st cid =
      if upsertNeeded src st.tgt.corr cid then
        { st with createdOther := st.createdOther + 1 } else st) := by
  unfold processChild
  cases hf : srcFind src cid with
  | none => simp [upsertNeeded, mappedPresent, hf]
  | some c =>
    cases hm : typeMapped c.fields with
    | none => simp [upsertNeeded, mappedPresent, hf, hm]
    | some t =>
      by_cases ht : t = ""
      · simp [upsertNeeded, mappedPresent, hf, hm, ht]
      · have hmp : mappedPresent src cid = true := by
          simp [mappedPresent, hf, hm, ht]
        cases hl : st.tgt.corr.lookup cid with
        | some ex =>
          have huN : upsertNeeded src st.tgt.corr cid = false := by
            simp [upsertNeeded, hl]
          cases hdry : args.dryRun with
          | true =>
            simp [find_target_by_reflected, hf, hm, ht, hl, huN, hdry]
          | false =>
            simp only [find_target_by_reflected, hf, hm, hl, huN, hdry, createTarget,
              Bool.not_false, Bool.and_true, Bool.true_and, Bool.and_false, Bool.false_and]
            rw [if_neg (by simpa using ht)]
            refine ⟨?_, ?_, ?_, ?_, by simp⟩
            all_goals
              simp [ifPush_tgt, ifPush_createdParent, ifPush_createdOther, ifRec_tgt,
                ifRec_createdParent, ifRec_createdOther]
            all_goals split <;> simp_all
        | none =>
          have huN : upsertNeeded src st.tgt.corr cid = true := by
            simp [upsertNeeded, hmp, hl]
          cases hdry : args.dryRun with
          | true =>
            simp [find_target_by_reflected, hf, hm, ht, hl, huN, hdry]
          | false =>
            simp only [find_target_by_reflected, hf, hm, hl, huN, hdry, createTarget,
              Bool.not_false, Bool.and_true, Bool.true_and, Bool.and_false, Bool.false_and]
            rw [if_neg (by simpa using ht)]
            refine ⟨?_, ?_, ?_, ?_, by simp⟩
            all_goals
              simp [ifPush_tgt, ifPush_createdParent, ifPush_createdOther, ifRec_tgt,
                ifRec_createdParent, ifRec_createdOther]
            all_goals split <;> simp_all

/-- Projections of one related-loop step: identical to the children-loop
step for the correlation map, fresh-id counter and created counters (the
related-link patch only touches the trace and the related-links counter). -/
theorem processRelated_proj (args : Args) (src : List SrcItem) (tp : Int) (st : EngineSt)
    (rid : Int) :
    ((processRelated args src tp st rid).tgt.corr =
      if !args.dryRun && upsertNeeded src st.tgt.corr rid then
        st.tgt.corr ++ [(rid, st.tgt.nextId)] else st.tgt.corr) ∧
    ((processRelated args src tp st rid).tgt.nextId =
      if !args.dryRun && upsertNeeded src st.tgt.corr rid then
        st.tgt.nextId + 1 else st.tgt.nextId) ∧
    ((processRelated args src tp st rid).createdOther =
      st.createdOther + (if upsertNeeded src st.tgt.corr rid then 1 else 0)) ∧
    ((processRelated args src tp st rid).createdParent = st.createdParent) ∧
    (args.dryRun = true → processRelated args src tp st rid =
      if upsertNeeded src st.tgt.corr rid then
        { st with createdOther := st.createdOther + 1 } else st) := by
  unfold processRelated
  cases hf : srcFind src rid with
  | none => simp [upsertNeeded, mappedPresent, hf]
  | some r =>
    cases hm : typeMapped r.fields with
    | none => simp [upsertNeeded, mappedPresent, hf, hm]
    | some t =>
      by_cases ht : t = ""
      · simp [upsertNeeded, mappedPresent, hf, hm, ht]
      · have hmp : mappedPresent src rid = true := by
          simp [mappedPresent, hf, hm, ht]
        cases hl : st.tgt.corr.lookup rid with
        | some ex =>
          have huN : upsertNeeded src st.tgt.corr rid = false := by
            simp [upsertNeeded, hl]
          cases hdry : args.dryRun with
          | true =>
            simp [find_target_by_reflected, hf, hm, ht, hl, huN, hdry]
          | false =>
            simp only [find_target_by_reflected, hf, hm, hl, huN, hdry, createTarget,
              Bool.not_false, Bool.and_true, Bool.true_and, Bool.and_false, Bool.false_and]
            rw [if_neg (by simpa using ht)]
            refine ⟨?_, ?_, ?_, ?_, by simp⟩
            all_goals
              simp [ifPush_tgt, ifPush_createdParent, ifPush_createdOther, ifRec_tgt,
                ifRec_createdParent, ifRec_createdOther]
            all_goals split <;> simp_all
        | none =>
          have huN : upsertNeeded src st.tgt.corr rid = true := by
            simp [upsertNeeded, hmp, hl]
          cases hdry : args.dryRun with
          | true =>
            simp [find_target_by_reflected, hf, hm, ht, hl, huN, hdry]
          | false =>
            simp only [find_target_by_reflected, hf, hm, hl, huN, hdry, createTarget,
              Bool.not_false, Bool.and_true, Bool.true_and, Bool.and_false, Bool.false_and]
            rw [if_neg (by simpa using ht)]
            refine ⟨?_, ?_, ?_, ?_, by simp⟩
            all_goals
              simp [ifPush_tgt, ifPush_createdParent, ifPush_createdOther, ifRec_tgt,
                ifRec_createdParent, ifRec_createdOther]
            all_goals split <;> simp_all

/-- The resolve-or-create stage of the parent step (lines 269-292), as a
named function for reasoning: the state after the stage and the target
parent id (`-1` in a dry-run create). -/
def parentRes (args : Args) (st : EngineSt) (pid : Int) (p : SrcItem) : EngineSt × Int :=
  match find_target_by_reflected st.tgt pid with
  | some existing => (st, existing)
  | none =>
    if args.dryRun then ({ st with createdParent := st.createdParent + 1 }, -1)
    else
      ({ st with tgt := (createTarget st.tgt pid).1,
                 createdParent := st.createdParent + 1,
                 trace := st.trace ++ [Mut.createWI TARGET_PARENT_TYPE
                   (create_patch (mk_copy_fields args pid p.fields) none)] },
       (createTarget st.tgt pid).2)

/-- The parent-comments stage (lines 294-299). -/
def parentStage2 (args : Args) (st : EngineSt) (pid : Int) (p : SrcItem) : EngineSt :=
  if args.withComments && !args.dryRun && decide (0 < (parentRes args st pid p).2)
  then pushAllComments (parentRes args st pid p).1 (parentRes args st pid p).2 p.comments
  else (parentRes args st pid p).1

/-- `processParent` decomposes as the resolve stage, the comments stage, the
children fold and the related fold. -/
theorem processParent_eq (args : Args) (src : List SrcItem) (st : EngineSt) (pid : Int) :
    processParent args src st pid =
      match srcFind src pid with
      | none => st
      | some p =>
        (get_children_related p.relations).2.foldl
          (processRelated args src (parentRes args st pid p).2)
          ((get_children_related p.relations).1.foldl
            (processChild args src (parentRes args st pid p).2)
            (parentStage2 args st pid p)) := by
  cases hf : srcFind src pid with
  | none => simp [processParent, hf]
  | some p =>
    simp only [processParent, parentStage2, parentRes, hf]

/-- Projections of the parent resolve stage. -/
theorem parentRes_proj (args : Args) (st : EngineSt) (pid : Int) (p : SrcItem) :
    ((parentRes args st pid p).1.tgt.corr =
      if !args.dryRun && !(st.tgt.corr.lookup pid).isSome then
        st.tgt.corr ++ [(pid, st.tgt.nextId)] else st.tgt.corr) ∧
    ((parentRes args st pid p).1.tgt.nextId =
      if !args.dryRun && !(st.tgt.corr.lookup pid).isSome then
        st.tgt.nextId + 1 else st.tgt.nextId) ∧
    ((parentRes args st pid p).1.createdParent =
      st.createdParent + (if (st.tgt.corr.lookup pid).isSome then 0 else 1)) ∧
    ((parentRes args st pid p).1.createdOther = st.createdOther) ∧
    (args.dryRun = true → (parentRes args st pid p).1 =
      if (st.tgt.corr.lookup pid).isSome then st
      else { st with createdParent := st.createdParent + 1 }) ∧
    ((st.tgt.corr.lookup pid).isSome = true → (parentRes args st pid p).1 = st) := by
  unfold parentRes
  cases hl : st.tgt.corr.lookup pid with
  | some ex =>
    simp [find_target_by_reflected, hl]
  | none =>
    cases hdry : args.dryRun with
    | true => simp [find_target_by_reflected, hl, hdry]
    | false => simp [find_target_by_reflected, hl, hdry, createTarget]

/-- Projections of the parent-comments stage. -/
theorem parentStage2_proj (args : Args) (st : EngineSt) (pid : Int) (p : SrcItem) :
    (parentStage2 args st pid p).tgt = (parentRes args st pid p).1.tgt ∧
    (parentStage2 args st pid p).createdParent = (parentRes args st pid p).1.createdParent ∧
    (parentStage2 args st pid p).createdOther = (parentRes args st pid p).1.createdOther ∧
    (args.dryRun = true → parentStage2 args st pid p = (parentRes args st pid p).1) := by
  unfold parentStage2
  refine ⟨ifPush_tgt _ _ _ _, ifPush_createdParent _ _ _ _, ifPush_createdOther _ _ _ _, ?_⟩
  intro hd
  rw [if_neg (by simp [hd])]

/-- The ids that one parent step resolves against the correlation map and,
when absent, creates: the parent itself plus its mapped-and-present children
and related ids. -/
def coveredIds (src : List SrcItem) (pid : Int) : List Int :=
  match srcFind src pid with
  | none => []
  | some p =>
    pid :: ((get_children_related p.relations).1.filter (fun i => mappedPresent src i) ++
            (get_children_related p.relations).2.filter (fun i => mappedPresent src i))

theorem foldl_corr_extend (f : EngineSt → Int → EngineSt)
    (hf : ∀ st i, ∃ ext, (f st i).tgt.corr = st.tgt.corr ++ ext) :
    ∀ (l : List Int) (st : EngineSt), ∃ ext, (l.foldl f st).tgt.corr = st.tgt.corr ++ ext := by
  intro l
  induction l with
  | nil => exact fun st => ⟨[], (List.append_nil _).symm⟩
  | cons i rest ih =>
    intro st
    obtain ⟨e1, he1⟩ := hf st i
    obtain ⟨e2, he2⟩ := ih (f st i)
    exact ⟨e1 ++ e2, by rw [List.foldl_cons, he2, he1, List.append_assoc]⟩

theorem processChild_corr_extend (args : Args) (src : List SrcItem) (tp : Int) :
    ∀ (st : EngineSt) (cid : Int),
      ∃ ext, (processChild args src tp st cid).tgt.corr = st.tgt.corr ++ ext := by
  intro st cid
  have h := (processChild_proj args src tp st cid).1
  by_cases hc : (!args.dryRun && upsertNeeded src st.tgt.corr cid) = true
  · exact ⟨[(cid, st.tgt.nextId)], by rw [h, if_pos hc]⟩
  · exact ⟨[], by rw [h, if_neg hc, List.append_nil]⟩

theorem processRelated_corr_extend (args : Args) (src : List SrcItem) (tp : Int) :
    ∀ (st : EngineSt) (rid : Int),
      ∃ ext, (processRelated args src tp st rid).tgt.corr = st.tgt.corr ++ ext := by
  intro st rid
  have h := (processRelated_proj args src tp st rid).1
  by_cases hc : (!args.dryRun && upsertNeeded src st.tgt.corr rid) = true
  · exact ⟨[(rid, st.tgt.nextId)], by rw [h, if_pos hc]⟩
  · exact ⟨[], by rw [h, if_neg hc, List.append_nil]⟩

theorem parentStage2_corr_extend (args : Args) (st : EngineSt) (pid : Int) (p : SrcItem) :
    ∃ ext, (parentStage2 args st pid p).tgt.corr = st.tgt.corr ++ ext := by
  have h2 := (parentStage2_proj args st pid p).1
  have h1 := (parentRes_proj args st pid p).1
  by_cases hc : (!args.dryRun && !(st.tgt.corr.lookup pid).isSome) = true
  · exact ⟨[(pid, st.tgt.nextId)], by rw [h2, h1, if_pos hc]⟩
  · exact ⟨[], by rw [h2, h1, if_neg hc, List.append_nil]⟩

theorem processParent_corr_extend (args : Args) (src : List SrcItem) :
    ∀ (st : EngineSt) (pid : Int),
      ∃ ext, (processParent args src st pid).tgt.corr = st.tgt.corr ++ ext := by
  intro st pid
  rw [processParent_eq]
  cases hf : srcFind src pid with
  | none => exact ⟨[], (List.append_nil _).symm⟩
  | some p =>
    obtain ⟨e0, he0⟩ := parentStage2_corr_extend args st pid p
    obtain ⟨e1, he1⟩ := foldl_corr_extend _ (processChild_corr_extend args src _)
      (get_children_related p.relations).1 (parentStage2 args st pid p)
    obtain ⟨e2, he2⟩ := foldl_corr_extend _ (processRelated_corr_extend args src _)
      (get_children_related p.relations).2
      ((get_children_related p.relations).1.foldl
        (processChild args src (parentRes args st pid p).2) (parentStage2 args st pid p))
    exact ⟨e0 ++ e1 ++ e2, by
      rw [he2, he1, he0, List.append_assoc, List.append_assoc, List.append_assoc]⟩

theorem foldl_child_cover (args : Args) (src : List SrcItem) (tp : Int)
    (hdry : args.dryRun = false) :
    ∀ (cs : List Int) (st : EngineSt) (x : Int), x ∈ cs → mappedPresent src x = true →
      ((cs.foldl (processChild args src tp) st).tgt.corr.lookup x).isSome = true := by
  intro cs
  induction cs with
  | nil => simp
  | cons y rest ih =>
    intro st x hx hmp
    rw [List.foldl_cons]
    rcases List.mem_cons.mp hx with rfl | hx'
    · have hcov : ((processChild args src tp st x).tgt.corr.lookup x).isSome = true := by
        have h := (processChild_proj args src tp st x).1
        by_cases hl : (st.tgt.corr.lookup x).isSome = true
        · rw [h]
          split
          · exact lookup_append_isSome hl
          · exact hl
        · have hlnone : st.tgt.corr.lookup x = none := by
            cases hc : st.tgt.corr.lookup x
            · rfl
            · exact absurd (by rw [hc]; rfl) hl
          have huN : upsertNeeded src st.tgt.corr x = true := by
            simp [upsertNeeded, hmp, hlnone]
          rw [h, if_pos (by rw [hdry, huN]; rfl), List.lookup_append, hlnone]
          simp [List.lookup]
      obtain ⟨ext, hext⟩ := foldl_corr_extend _ (processChild_corr_extend args src tp) rest
        (processChild args src tp st x)
      rw [hext]
      exact lookup_append_isSome hcov
    · exact ih (processChild args src tp st y) x hx' hmp

theorem foldl_related_cover (args : Args) (src : List SrcItem) (tp : Int)
    (hdry : args.dryRun = false) :
    ∀ (cs : List Int) (st : EngineSt) (x : Int), x ∈ cs → mappedPresent src x = true →
      ((cs.foldl (processRelated args src tp) st).tgt.corr.lookup x).isSome = true := by
  intro cs
  induction cs with
  | nil => simp
  | cons y rest ih =>
    intro st x hx hmp
    rw [List.foldl_cons]
    rcases List.mem_cons.mp hx with rfl | hx'
    · have hcov : ((processRelated args src tp st x).tgt.corr.lookup x).isSome = true := by
        have h := (processRelated_proj args src tp st x).1
        by_cases hl : (st.tgt.corr.lookup x).isSome = true
        · rw [h]
          split
          · exact lookup_append_isSome hl
          · exact hl
        · have hlnone : st.tgt.corr.lookup x = none := by
            cases hc : st.tgt.corr.lookup x
            · rfl
            · exact absurd (by rw [hc]; rfl) hl
          have huN : upsertNeeded src st.tgt.corr x = true := by
            simp [upsertNeeded, hmp, hlnone]
          rw [h, if_pos (by rw [hdry, huN]; rfl), List.lookup_append, hlnone]
          simp [List.lookup]
      obtain ⟨ext, hext⟩ := foldl_corr_extend _ (processRelated_corr_extend args src tp) rest
        (processRelated args src tp st x)
      rw [hext]
      exact lookup_append_isSome hcov
    · exact ih (processRelated args src tp st y) x hx' hmp

theorem processChild_nochange (args : Args) (src : List SrcItem) (tp : Int) (st : EngineSt)
    (cid : Int) (h : upsertNeeded src st.tgt.corr cid = false) :
    (processChild args src tp st cid).tgt = st.tgt ∧
    (processChild args src tp st cid).createdParent = st.createdParent ∧
    (processChild args src tp st cid).createdOther = st.createdOther := by
  obtain ⟨h1, h2, h3, h4, -⟩ := processChild_proj args src tp st cid
  refine ⟨tgtState_ext ?_ ?_, h4, ?_⟩
  · rw [h1, if_neg (by simp [h])]
  · rw [h2, if_neg (by simp [h])]
  · rw [h3, h, if_neg (by simp)]
    rfl

theorem processRelated_nochange (args : Args) (src : List SrcItem) (tp : Int) (st : EngineSt)
    (rid : Int) (h : upsertNeeded src st.tgt.corr rid = false) :
    (processRelated args src tp st rid).tgt = st.tgt ∧
    (processRelated args src tp st rid).createdParent = st.createdParent ∧
    (processRelated args src tp st rid).createdOther = st.createdOther := by
  obtain ⟨h1, h2, h3, h4, -⟩ := processRelated_proj args src tp st rid
  refine ⟨tgtState_ext ?_ ?_, h4, ?_⟩
  · rw [h1, if_neg (by simp [h])]
  · rw [h2, if_neg (by simp [h])]
  · rw [h3, h, if_neg (by simp)]
    rfl

theorem foldl_child_nochange (args : Args) (src : List SrcItem) (tp : Int) :
    ∀ (cs : List Int) (st : EngineSt),
      (∀ x ∈ cs, mappedPresent src x = true → ((st.tgt.corr.lookup x)).isSome = true) →
      ((cs.foldl (processChild args src tp) st).tgt = st.tgt ∧
       (cs.foldl (processChild args src tp) st).createdParent = st.createdParent ∧
       (cs.foldl (processChild args src tp) st).createdOther = st.createdOther) := by
  intro cs
  induction cs with
  | nil => exact fun st _ => ⟨rfl, rfl, rfl⟩
  | cons y rest ih =>
    intro st hcov
    have huN : upsertNeeded src st.tgt.corr y = false := by
      unfold upsertNeeded
      by_cases hmp : mappedPresent src y = true
      · rw [hmp, hcov y (List.mem_cons_self y rest) hmp]
        rfl
      · rw [Bool.not_eq_true] at hmp
        rw [hmp]
        rfl
    obtain ⟨e1, e2, e3⟩ := processChild_nochange args src tp st y huN
    obtain ⟨f1, f2, f3⟩ := ih (processChild args src tp st y)
      (fun x hx hmp => by rw [e1]; exact hcov x (List.mem_cons_of_mem y hx) hmp)
    rw [List.foldl_cons]
    exact ⟨f1.trans e1, f2.trans e2, f3.trans e3⟩

theorem foldl_related_nochange (args : Args) (src : List SrcItem) (tp : Int) :
    ∀ (cs : List Int) (st : EngineSt),
      (∀ x ∈ cs, mappedPresent src x = true → ((st.tgt.corr.lookup x)).isSome = true) →
      ((cs.foldl (processRelated args src tp) st).tgt = st.tgt ∧
       (cs.foldl (processRelated args src tp) st).createdParent = st.createdParent ∧
       (cs.foldl (processRelated args src tp) st).createdOther = st.createdOther) := by
  intro cs
  induction cs with
  | nil => exact fun st _ => ⟨rfl, rfl, rfl⟩
  | cons y rest ih =>
    intro st hcov
    have huN : upsertNeeded src st.tgt.corr y = false := by
      unfold upsertNeeded
      by_cases hmp : mappedPresent src y = true
      · rw [hmp, hcov y (List.mem_cons_self y rest) hmp]
        rfl
      · rw [Bool.not_eq_true] at hmp
        rw [hmp]
        rfl
    obtain ⟨e1, e2, e3⟩ := processRelated_nochange args src tp st y huN
    obtain ⟨f1, f2, f3⟩ := ih (processRelated args src tp st y)
      (fun x hx hmp => by rw [e1]; exact hcov x (List.mem_cons_of_mem y hx) hmp)
    rw [List.foldl_cons]
    exact ⟨f1.trans e1, f2.trans e2, f3.trans e3⟩

/-- After a real-run parent step, every covered id of that parent resolves
in the correlation map. -/
theorem processParent_cover (args : Args) (src : List SrcItem) (hdry : args.dryRun = false)
    (st : EngineSt) (pid : Int) :
    ∀ x ∈ coveredIds src pid,
      ((processParent args src st pid).tgt.corr.lookup x).isSome = true := by
  intro x hx
  rw [processParent_eq]
  unfold coveredIds at hx
  cases hf : srcFind src pid with
  | none => rw [hf] at hx; cases hx
  | some p =>
    rw [hf] at hx
    have hres : ((parentStage2 args st pid p).tgt.corr.lookup pid).isSome = true ∨
        (parentStage2 args st pid p).tgt.corr = st.tgt.corr := by
      have h2 := (parentStage2_proj args st pid p).1
      have h1 := (parentRes_proj args st pid p).1
      by_cases hl : (st.tgt.corr.lookup pid).isSome = true
      · right
        rw [h2, h1, if_neg (by simp [hl])]
      · left
        have hlnone : st.tgt.corr.lookup pid = none := by
          cases hc : st.tgt.corr.lookup pid
          · rfl
          · exact absurd (by rw [hc]; rfl) hl
        rw [h2, h1, if_pos (by simp [hdry, hlnone]), List.lookup_append, hlnone]
        simp [List.lookup]
    rcases List.mem_cons.mp hx with rfl | hx'
    · -- x is the parent id itself
      have hcov2 : ((parentStage2 args st x p).tgt.corr.lookup x).isSome = true := by
        rcases hres with h | h
        · exact h
        · rw [h]
          by_cases hl : (st.tgt.corr.lookup x).isSome = true
          · exact hl
          · exfalso
            have hlnone : st.tgt.corr.lookup x = none := by
              cases hc : st.tgt.corr.lookup x
              · rfl
              · exact absurd (by rw [hc]; rfl) hl
            have h2 := (parentStage2_proj args st x p).1
            have h1 := (parentRes_proj args st x p).1
            rw [h2, h1, if_pos (by simp [hdry, hlnone])] at h
            have := congrArg List.length h
            simp at this
      obtain ⟨e1, he1⟩ := foldl_corr_extend _ (processChild_corr_extend args src _)
        (get_children_related p.relations).1 (parentStage2 args st x p)
      obtain ⟨e2, he2⟩ := foldl_corr_extend _ (processRelated_corr_extend args src _)
        (get_children_related p.relations).2
        ((get_children_related p.relations).1.foldl
          (processChild args src (parentRes args st x p).2) (parentStage2 args st x p))
      rw [he2, he1]
      exact lookup_append_isSome (lookup_append_isSome hcov2)
    · rcases List.mem_append.mp hx' with hc | hr
      · -- x is a mapped child
        obtain ⟨hcm, hmp⟩ := List.mem_filter.mp hc
        have hcov3 := foldl_child_cover args src (parentRes args st pid p).2 hdry
          (get_children_related p.relations).1 (parentStage2 args st pid p) x hcm hmp
        obtain ⟨e2, he2⟩ := foldl_corr_extend _ (processRelated_corr_extend args src _)
          (get_children_related p.relations).2
          ((get_children_related p.relations).1.foldl
            (processChild args src (parentRes args st pid p).2) (parentStage2 args st pid p))
        rw [he2]
        exact lookup_append_isSome hcov3
      · -- x is a mapped related id
        obtain ⟨hrm, hmp⟩ := List.mem_filter.mp hr
        exact foldl_related_cover args src (parentRes args st pid p).2 hdry
          (get_children_related p.relations).2 _ x hrm hmp

/-- A parent step whose covered ids all already resolve changes neither the
target state nor the created counters. -/
theorem processParent_nochange (args : Args) (src : List SrcItem) (st : EngineSt) (pid : Int)
    (h : ∀ x ∈ coveredIds src pid, ((st.tgt.corr.lookup x)).isSome = true) :
    (processParent args src st pid).tgt = st.tgt ∧
    (processParent args src st pid).createdParent = st.createdParent ∧
    (processParent args src st pid).createdOther = st.createdOther := by
  rw [processParent_eq]
  unfold coveredIds at h
  cases hf : srcFind src pid with
  | none => exact ⟨rfl, rfl, rfl⟩
  | some p =>
    rw [hf] at h
    have hpid : (st.tgt.corr.lookup pid).isSome = true :=
      h pid (List.mem_cons_self _ _)
    have hres1 : (parentRes args st pid p).1 = st :=
      (parentRes_proj args st pid p).2.2.2.2.2 hpid
    have hst2tgt : (parentStage2 args st pid p).tgt = st.tgt := by
      rw [(parentStage2_proj args st pid p).1, hres1]
    have hst2cp : (parentStage2 args st pid p).createdParent = st.createdParent := by
      rw [(parentStage2_proj args st pid p).2.1, hres1]
    have hst2co : (parentStage2 args st pid p).createdOther = st.createdOther := by
      rw [(parentStage2_proj args st pid p).2.2.1, hres1]
    obtain ⟨f1, f2, f3⟩ := foldl_child_nochange args src (parentRes args st pid p).2
      (get_children_related p.relations).1 (parentStage2 args st pid p)
      (fun x hx hmp => by
        rw [hst2tgt]
        exact h x (List.mem_cons_of_mem _ (List.mem_append_left _
          (List.mem_filter.mpr ⟨hx, hmp⟩))))
    obtain ⟨g1, g2, g3⟩ := foldl_related_nochange args src (parentRes args st pid p).2
      (get_children_related p.relations).2
      ((get_children_related p.relations).1.foldl
        (processChild args src (parentRes args st pid p).2) (parentStage2 args st pid p))
      (fun x hx hmp => by
        rw [f1, hst2tgt]
        exact h x (List.mem_cons_of_mem _ (List.mem_append_right _
          (List.mem_filter.mpr ⟨hx, hmp⟩))))
    exact ⟨g1.trans (f1.trans hst2tgt), g2.trans (f2.trans hst2cp),
      g3.trans (f3.trans hst2co)⟩

theorem foldl_parent_cover (args : Args) (src : List SrcItem) (hdry : args.dryRun = false) :
    ∀ (L : List Int) (st : EngineSt) (pid : Int), pid ∈ L →
      ∀ x ∈ coveredIds src pid,
        ((L.foldl (processParent args src) st).tgt.corr.lookup x).isSome = true := by
  intro L
  induction L with
  | nil => simp
  | cons q rest ih =>
    intro st pid hpid x hx
    rw [List.foldl_cons]
    rcases List.mem_cons.mp hpid with hq | hpid'
    · obtain ⟨ext, hext⟩ := foldl_corr_extend _ (processParent_corr_extend args src) rest
        (processParent args src st q)
      rw [hext]
      exact lookup_append_isSome (processParent_cover args src hdry st q x (hq ▸ hx))
    · exact ih (processParent args src st q) pid hpid' x hx

theorem foldl_parent_nochange (args : Args) (src : List SrcItem) :
    ∀ (L : List Int) (st : EngineSt),
      (∀ pid ∈ L, ∀ x ∈ coveredIds src pid, ((st.tgt.corr.lookup x)).isSome = true) →
      ((L.foldl (processParent args src) st).tgt = st.tgt ∧
       (L.foldl (processParent args src) st).createdParent = st.createdParent ∧
       (L.foldl (processParent args src) st).createdOther = st.createdOther) := by
  intro L
  induction L with
  | nil => exact fun st _ => ⟨rfl, rfl, rfl⟩
  | cons q rest ih =>
    intro st h
    obtain ⟨e1, e2, e3⟩ := processParent_nochange args src st q
      (h q (List.mem_cons_self _ _))
    obtain ⟨f1, f2, f3⟩ := ih (processParent args src st q)
      (fun pid hpid x hx => by
        rw [e1]
        exact h pid (List.mem_cons_of_mem _ hpid) x hx)
    rw [List.foldl_cons]
    exact ⟨f1.trans e1, f2.trans e2, f3.trans e3⟩

/-- C1: idempotence of the replication run. After a completed real run, a
second run of the same engine over the same source range against the
resulting target creates nothing: both created counters of the second run
are zero, the target state is unchanged by the second run, and for every
enumerated root and every mapped child and related id, the correlation
lookup against the first run's target resolves, so the create branch is
never taken. -/
theorem run_idempotent (P : Nat) (args : Args) (src : List SrcItem) (t0 : TgtState)
    (hdry : args.dryRun = false) :
    (runEngine P args src (runEngine P args src t0).tgt).createdParent = 0 ∧
    (runEngine P args src (runEngine P args src t0).tgt).createdOther = 0 ∧
    (runEngine P args src (runEngine P args src t0).tgt).tgt = (runEngine P args src t0).tgt ∧
    (∀ pid ∈ iterate_parent_ids P src args.maxItems args.startId args.excludeField
        args.excludeValue,
      ∀ x ∈ coveredIds src pid,
        (find_target_by_reflected (runEngine P args src t0).tgt x).isSome = true) := by
  have hcover : ∀ pid ∈ iterate_parent_ids P src args.maxItems args.startId
      args.excludeField args.excludeValue,
      ∀ x ∈ coveredIds src pid,
        (((runEngine P args src t0).tgt.corr.lookup x)).isSome = true := by
    intro pid hpid x hx
    exact foldl_parent_cover args src hdry _ (initSt t0) pid hpid x hx
  have hrun2 := foldl_parent_nochange args src
    (iterate_parent_ids P src args.maxItems args.startId args.excludeField args.excludeValue)
    (initSt (runEngine P args src t0).tgt)
    (fun pid hpid x hx => hcover pid hpid x hx)
  exact ⟨hrun2.2.1, hrun2.2.2, hrun2.1, hcover⟩

/-- Witness for C1 at the spec's concrete scenario: the second run over the
first run's target creates nothing. -/
theorem run_idempotent_witness :
    (runEngine 10 argsReal srcScenario
      (runEngine 10 argsReal srcScenario { corr := [], nextId := 1000 }).tgt).createdParent
        = 0 ∧
    (runEngine 10 argsReal srcScenario
      (runEngine 10 argsReal srcScenario { corr := [], nextId := 1000 }).tgt).createdOther
        = 0 := by
  have h := run_idempotent 10 argsReal srcScenario { corr := [], nextId := 1000 } rfl
  exact ⟨h.1, h.2.1⟩

theorem foldl_child_dry (args : Args) (src : List SrcItem) (tp : Int)
    (hdry : args.dryRun = true) :
    ∀ (cs : List Int) (st : EngineSt),
      (cs.foldl (processChild args src tp) st).tgt = st.tgt ∧
      (cs.foldl (processChild args src tp) st).relatedLinks = st.relatedLinks ∧
      (cs.foldl (processChild args src tp) st).trace = st.trace := by
  intro cs
  induction cs with
  | nil => exact fun st => ⟨rfl, rfl, rfl⟩
  | cons y rest ih =>
    intro st
    have hstep := (processChild_proj args src tp st y).2.2.2.2 hdry
    obtain ⟨f1, f2, f3⟩ := ih (processChild args src tp st y)
    rw [List.foldl_cons]
    rw [hstep] at f1 f2 f3 ⊢
    constructor
    · rw [f1]; split <;> rfl
    constructor
    · rw [f2]; split <;> rfl
    · rw [f3]; split <;> rfl

theorem foldl_related_dry (args : Args) (src : List SrcItem) (tp : Int)
    (hdry : args.dryRun = true) :
    ∀ (cs : List Int) (st : EngineSt),
      (cs.foldl (processRelated args src tp) st).tgt = st.tgt ∧
      (cs.foldl (processRelated args src tp) st).relatedLinks = st.relatedLinks ∧
      (cs.foldl (processRelated args src tp) st).trace = st.trace := by
  intro cs
  induction cs with
  | nil => exact fun st => ⟨rfl, rfl, rfl⟩
  | cons y rest ih =>
    intro st
    have hstep := (processRelated_proj args src tp st y).2.2.2.2 hdry
    obtain ⟨f1, f2, f3⟩ := ih (processRelated args src tp st y)
    rw [List.foldl_cons]
    rw [hstep] at f1 f2 f3 ⊢
    constructor
    · rw [f1]; split <;> rfl
    constructor
    · rw [f2]; split <;> rfl
    · rw [f3]; split <;> rfl

/-- In a dry run the whole parent step issues no mutation and leaves the
target state, the related-links counter and the trace unchanged. -/
theorem processParent_dry (args : Args) (src : List SrcItem) (hdry : args.dryRun = true)
    (st : EngineSt) (pid : Int) :
    (processParent args src st pid).tgt = st.tgt ∧
    (processParent args src st pid).relatedLinks = st.relatedLinks ∧
    (processParent args src st pid).trace = st.trace := by
  rw [processParent_eq]
  cases hf : srcFind src pid with
  | none => exact ⟨rfl, rfl, rfl⟩
  | some p =>
    have hres := (parentRes_proj args st pid p).2.2.2.2.1 hdry
    have hst2 := (parentStage2_proj args st pid p).2.2.2 hdry
    have hres_tgt : (parentRes args st pid p).1.tgt = st.tgt := by
      rw [hres]; split <;> rfl
    have hres_rl : (parentRes args st pid p).1.relatedLinks = st.relatedLinks := by
      rw [hres]; split <;> rfl
    have hres_tr : (parentRes args st pid p).1.trace = st.trace := by
      rw [hres]; split <;> rfl
    obtain ⟨c1, c2, c3⟩ := foldl_child_dry args src (parentRes args st pid p).2 hdry
      (get_children_related p.relations).1 (parentStage2 args st pid p)
    obtain ⟨r1, r2, r3⟩ := foldl_related_dry args src (parentRes args st pid p).2 hdry
      (get_children_related p.relations).2
      ((get_children_related p.relations).1.foldl
        (processChild args src (parentRes args st pid p).2) (parentStage2 args st pid p))
    have hs_tgt : (parentStage2 args st pid p).tgt = st.tgt := by rw [hst2]; exact hres_tgt
    have hs_rl : (parentStage2 args st pid p).relatedLinks = st.relatedLinks := by
      rw [hst2]; exact hres_rl
    have hs_tr : (parentStage2 args st pid p).trace = st.trace := by rw [hst2]; exact hres_tr
    exact ⟨r1.trans (c1.trans hs_tgt), r2.trans (c2.trans hs_rl), r3.trans (c3.trans hs_tr)⟩

theorem foldl_parent_dry (args : Args) (src : List SrcItem) (hdry : args.dryRun = true) :
    ∀ (L : List Int) (st : EngineSt),
      (L.foldl (processParent args src) st).tgt = st.tgt ∧
      (L.foldl (processParent args src) st).relatedLinks = st.relatedLinks ∧
      (L.foldl (processParent args src) st).trace = st.trace := by
  intro L
  induction L with
  | nil => exact fun st => ⟨rfl, rfl, rfl⟩
  | cons q rest ih =>
    intro st
    obtain ⟨e1, e2, e3⟩ := processParent_dry args src hdry st q
    obtain ⟨f1, f2, f3⟩ := ih (processParent args src st q)
    rw [List.foldl_cons]
    exact ⟨f1.trans e1, f2.trans e2, f3.trans e3⟩

theorem keys_append (a b : List (Int × Int)) : keys (a ++ b) = keys a ++ keys b := by
  simp [keys]

/-- Parallel simulation of the children loop between a dry run and a real
run from the same initial target, provided the mapped-and-present ids of
the loop are distinct and fresh: the dry state keeps the initial target and
both created counters stay equal, while the real correlation map grows only
by entries for the loop's mapped ids. -/
theorem childFold_sim (argsD argsR : Args) (hdryD : argsD.dryRun = true)
    (hdryR : argsR.dryRun = false) (src : List SrcItem) (t0 : TgtState) (tpd tpr : Int) :
    ∀ (cs : List Int) (dSt rSt : EngineSt) (ext : List (Int × Int)),
      dSt.tgt = t0 →
      rSt.tgt.corr = t0.corr ++ ext →
      rSt.createdParent = dSt.createdParent →
      rSt.createdOther = dSt.createdOther →
      (∀ x ∈ cs, mappedPresent src x = true → x ∉ keys ext) →
      (cs.filter (fun i => mappedPresent src i)).Nodup →
      ∃ ext' : List (Int × Int),
        (cs.foldl (processChild argsD src tpd) dSt).tgt = t0 ∧
        (cs.foldl (processChild argsR src tpr) rSt).tgt.corr = t0.corr ++ ext' ∧
        (cs.foldl (processChild argsR src tpr) rSt).createdParent =
          (cs.foldl (processChild argsD src tpd) dSt).createdParent ∧
        (cs.foldl (processChild argsR src tpr) rSt).createdOther =
          (cs.foldl (processChild argsD src tpd) dSt).createdOther ∧
        (∀ y ∈ keys ext', y ∈ keys ext ∨ (y ∈ cs ∧ mappedPresent src y = true)) := by
  intro cs
  induction cs with
  | nil =>
    intro dSt rSt ext h1 h2 h3 h4 _ _
    exact ⟨ext, h1, h2, h3, h4, fun y hy => Or.inl hy⟩
  | cons c rest ih =>
    intro dSt rSt ext h1 h2 h3 h4 hdisj hnd
    have hc1 : dSt.tgt.corr = t0.corr := by rw [h1]
    have hDdry := (processChild_proj argsD src tpd dSt c).2.2.2.2 hdryD
    obtain ⟨hRcorr, hRnext, hRco, hRcp, -⟩ := processChild_proj argsR src tpr rSt c
    simp only [List.foldl_cons]
    by_cases hmp : mappedPresent src c = true
    · have hcext : c ∉ keys ext := hdisj c (List.mem_cons_self _ _) hmp
      have hdec : upsertNeeded src rSt.tgt.corr c = upsertNeeded src dSt.tgt.corr c := by
        unfold upsertNeeded
        rw [h2, hc1, lookup_append_of_not_mem_keys hcext]
      have hcond : (!argsR.dryRun && upsertNeeded src rSt.tgt.corr c) =
          upsertNeeded src dSt.tgt.corr c := by
        rw [hdryR, hdec]
        simp
      have hfilter : (c :: rest).filter (fun i => mappedPresent src i) =
          c :: rest.filter (fun i => mappedPresent src i) := by
        simp [List.filter_cons, hmp]
      have hndrest : (rest.filter (fun i => mappedPresent src i)).Nodup := by
        rw [hfilter] at hnd
        exact hnd.of_cons
      cases hd : upsertNeeded src dSt.tgt.corr c with
      | true =>
        have hDst : processChild argsD src tpd dSt c =
            { dSt with createdOther := dSt.createdOther + 1 } := by
          rw [hDdry, if_pos hd]
        have hcrest : c ∉ rest.filter (fun i => mappedPresent src i) := by
          rw [hfilter] at hnd
          exact (List.nodup_cons.mp hnd).1
        have h2' : (processChild argsR src tpr rSt c).tgt.corr =
            t0.corr ++ (ext ++ [(c, rSt.tgt.nextId)]) := by
          rw [hRcorr, hcond, hd, if_pos rfl, h2, List.append_assoc]
        have h3' : (processChild argsR src tpr rSt c).createdParent =
            ({ dSt with createdOther := dSt.createdOther + 1 } : EngineSt).createdParent := by
          rw [hRcp, h3]
        have h4' : (processChild argsR src tpr rSt c).createdOther =
            ({ dSt with createdOther := dSt.createdOther + 1 } : EngineSt).createdOther := by
          rw [hRco, hdec, hd, if_pos rfl, h4]
        have hdisj' : ∀ x ∈ rest, mappedPresent src x = true →
            x ∉ keys (ext ++ [(c, rSt.tgt.nextId)]) := by
          intro x hx hmx
          rw [keys_append]
          intro hmem
          rcases List.mem_append.mp hmem with hmem | hmem
          · exact hdisj x (List.mem_cons_of_mem _ hx) hmx hmem
          · have hxc : x = c := by simpa [keys] using hmem
            exact hcrest (hxc ▸ List.mem_filter.mpr ⟨hx, hmx⟩)
        obtain ⟨ext', d1, d2, d3, d4, d5⟩ := ih
          { dSt with createdOther := dSt.createdOther + 1 }
          (processChild argsR src tpr rSt c) (ext ++ [(c, rSt.tgt.nextId)])
          h1 h2' h3' h4' hdisj' hndrest
        refine ⟨ext', by rw [hDst]; exact d1, d2, ?_, ?_, ?_⟩
        · rw [hDst]; exact d3
        · rw [hDst]; exact d4
        · intro y hy
          rcases d5 y hy with hmem | ⟨hyr, hym⟩
          · rw [keys_append] at hmem
            rcases List.mem_append.mp hmem with hmem | hmem
            · exact Or.inl hmem
            · have : y = c := by simpa [keys] using hmem
              exact Or.inr ⟨this ▸ List.mem_cons_self _ _, this ▸ hmp⟩
          · exact Or.inr ⟨List.mem_cons_of_mem _ hyr, hym⟩
      | false =>
        have hDst : processChild argsD src tpd dSt c = dSt := by
          rw [hDdry, if_neg (by simp [hd])]
        have h2' : (processChild argsR src tpr rSt c).tgt.corr = t0.corr ++ ext := by
          rw [hRcorr, hcond, hd, if_neg (by simp), h2]
        have h3' : (processChild argsR src tpr rSt c).createdParent = dSt.createdParent := by
          rw [hRcp, h3]
        have h4' : (processChild argsR src tpr rSt c).createdOther = dSt.createdOther := by
          rw [hRco, hdec, hd, if_neg (by simp), h4]
          rfl
        obtain ⟨ext', d1, d2, d3, d4, d5⟩ := ih dSt (processChild argsR src tpr rSt c) ext
          h1 h2' h3' h4'
          (fun x hx hmx => hdisj x (List.mem_cons_of_mem _ hx) hmx) hndrest
        refine ⟨ext', by rw [hDst]; exact d1, d2, ?_, ?_, ?_⟩
        · rw [hDst]; exact d3
        · rw [hDst]; exact d4
        · intro y hy
          rcases d5 y hy with hmem | ⟨hyr, hym⟩
          · exact Or.inl hmem
          · exact Or.inr ⟨List.mem_cons_of_mem _ hyr, hym⟩
    · have hmpf : mappedPresent src c = false := by
        rwa [Bool.not_eq_true] at hmp
      have hdf : upsertNeeded src dSt.tgt.corr c = false := by
        simp [upsertNeeded, hmpf]
      have hrf : upsertNeeded src rSt.tgt.corr c = false := by
        simp [upsertNeeded, hmpf]
      have hDst : processChild argsD src tpd dSt c = dSt := by
        rw [hDdry, if_neg (by simp [hdf])]
      have h2' : (processChild argsR src tpr rSt c).tgt.corr = t0.corr ++ ext := by
        rw [hRcorr, hrf, if_neg (by simp), h2]
      have h3' : (processChild argsR src tpr rSt c).createdParent = dSt.createdParent := by
        rw [hRcp, h3]
      have h4' : (processChild argsR src tpr rSt c).createdOther = dSt.createdOther := by
        rw [hRco, hrf, if_neg (by simp), h4]
        rfl
      have hndrest : (rest.filter (fun i => mappedPresent src i)).Nodup := by
        have hfilter : (c :: rest).filter (fun i => mappedPresent src i) =
            rest.filter (fun i => mappedPresent src i) := by
          simp [List.filter_cons, hmpf]
        rwa [hfilter] at hnd
      obtain ⟨ext', d1, d2, d3, d4, d5⟩ := ih dSt (processChild argsR src tpr rSt c) ext
        h1 h2' h3' h4'
        (fun x hx hmx => hdisj x (List.mem_cons_of_mem _ hx) hmx) hndrest
      refine ⟨ext', by rw [hDst]; exact d1, d2, ?_, ?_, ?_⟩
      · rw [hDst]; exact d3
      · rw [hDst]; exact d4
      · intro y hy
        rcases d5 y hy with hmem | ⟨hyr, hym⟩
        · exact Or.inl hmem
        · exact Or.inr ⟨List.mem_cons_of_mem _ hyr, hym⟩

/-- Parallel simulation of the related loop between a dry run and a real
run from the same initial target, provided the mapped-and-present ids of
the loop are distinct and fresh: the dry state keeps the initial target and
both created counters stay equal, while the real correlation map grows only
by entries for the loop's mapped ids. -/
theorem relatedFold_sim (argsD argsR : Args) (hdryD : argsD.dryRun = true)
    (hdryR : argsR.dryRun = false) (src : List SrcItem) (t0 : TgtState) (tpd tpr : Int) :
    ∀ (cs : List Int) (dSt rSt : EngineSt) (ext : List (Int × Int)),
      dSt.tgt = t0 →
      rSt.tgt.corr = t0.corr ++ ext →
      rSt.createdParent = dSt.createdParent →
      rSt.createdOther = dSt.createdOther →
      (∀ x ∈ cs, mappedPresent src x = true → x ∉ keys ext) →
      (cs.filter (fun i => mappedPresent src i)).Nodup →
      ∃ ext' : List (Int × Int),
        (cs.foldl (processRelated argsD src tpd) dSt).tgt = t0 ∧
        (cs.foldl (processRelated argsR src tpr) rSt).tgt.corr = t0.corr ++ ext' ∧
        (cs.foldl (processRelated argsR src tpr) rSt).createdParent =
          (cs.foldl (processRelated argsD src tpd) dSt).createdParent ∧
        (cs.foldl (processRelated argsR src tpr) rSt).createdOther =
          (cs.foldl (processRelated argsD src tpd) dSt).createdOther ∧
        (∀ y ∈ keys ext', y ∈ keys ext ∨ (y ∈ cs ∧ mappedPresent src y = true)) := by
  intro cs
  induction cs with
  | nil =>
    intro dSt rSt ext h1 h2 h3 h4 _ _
    exact ⟨ext, h1, h2, h3, h4, fun y hy => Or.inl hy⟩
  | cons c rest ih =>
    intro dSt rSt ext h1 h2 h3 h4 hdisj hnd
    have hc1 : dSt.tgt.corr = t0.corr := by rw [h1]
    have hDdry := (processRelated_proj argsD src tpd dSt c).2.2.2.2 hdryD
    obtain ⟨hRcorr, hRnext, hRco, hRcp, -⟩ := processRelated_proj argsR src tpr rSt c
    simp only [List.foldl_cons]
    by_cases hmp : mappedPresent src c = true
    · have hcext : c ∉ keys ext := hdisj c (List.mem_cons_self _ _) hmp
      have hdec : upsertNeeded src rSt.tgt.corr c = upsertNeeded src dSt.tgt.corr c := by
        unfold upsertNeeded
        rw [h2, hc1, lookup_append_of_not_mem_keys hcext]
      have hcond : (!argsR.dryRun && upsertNeeded src rSt.tgt.corr c) =
          upsertNeeded src dSt.tgt.corr c := by
        rw [hdryR, hdec]
        simp
      have hfilter : (c :: rest).filter (fun i => mappedPresent src i) =
          c :: rest.filter (fun i => mappedPresent src i) := by
        simp [List.filter_cons, hmp]
      have hndrest : (rest.filter (fun i => mappedPresent src i)).Nodup := by
        rw [hfilter] at hnd
        exact hnd.of_cons
      cases hd : upsertNeeded src dSt.tgt.corr c with
      | true =>
        have hDst : processRelated argsD src tpd dSt c =
            { dSt with createdOther := dSt.createdOther + 1 } := by
          rw [hDdry, if_pos hd]
        have hcrest : c ∉ rest.filter (fun i => mappedPresent src i) := by
          rw [hfilter] at hnd
          exact (List.nodup_cons.mp hnd).1
        have h2' : (processRelated argsR src tpr rSt c).tgt.corr =
            t0.corr ++ (ext ++ [(c, rSt.tgt.nextId)]) := by
          rw [hRcorr, hcond, hd, if_pos rfl, h2, List.append_assoc]
        have h3' : (processRelated argsR src tpr rSt c).createdParent =
            ({ dSt with createdOther := dSt.createdOther + 1 } : EngineSt).createdParent := by
          rw [hRcp, h3]
        have h4' : (processRelated argsR src tpr rSt c).createdOther =
            ({ dSt with createdOther := dSt.createdOther + 1 } : EngineSt).createdOther := by
          rw [hRco, hdec, hd, if_pos rfl, h4]
        have hdisj' : ∀ x ∈ rest, mappedPresent src x = true →
            x ∉ keys (ext ++ [(c, rSt.tgt.nextId)]) := by
          intro x hx hmx
          rw [keys_append]
          intro hmem
          rcases List.mem_append.mp hmem with hmem | hmem
          · exact hdisj x (List.mem_cons_of_mem _ hx) hmx hmem
          · have hxc : x = c := by simpa [keys] using hmem
            exact hcrest (hxc ▸ List.mem_filter.mpr ⟨hx, hmx⟩)
        obtain ⟨ext', d1, d2, d3, d4, d5⟩ := ih
          { dSt with createdOther := dSt.createdOther + 1 }
          (processRelated argsR src tpr rSt c) (ext ++ [(c, rSt.tgt.nextId)])
          h1 h2' h3' h4' hdisj' hndrest
        refine ⟨ext', by rw [hDst]; exact d1, d2, ?_, ?_, ?_⟩
        · rw [hDst]; exact d3
        · rw [hDst]; exact d4
        · intro y hy
          rcases d5 y hy with hmem | ⟨hyr, hym⟩
          · rw [keys_append] at hmem
            rcases List.mem_append.mp hmem with hmem | hmem
            · exact Or.inl hmem
            · have : y = c := by simpa [keys] using hmem
              exact Or.inr ⟨this ▸ List.mem_cons_self _ _, this ▸ hmp⟩
          · exact Or.inr ⟨List.mem_cons_of_mem _ hyr, hym⟩
      | false =>
        have hDst : processRelated argsD src tpd dSt c = dSt := by
          rw [hDdry, if_neg (by simp [hd])]
        have h2' : (processRelated argsR src tpr rSt c).tgt.corr = t0.corr ++ ext := by
          rw [hRcorr, hcond, hd, if_neg (by simp), h2]
        have h3' : (processRelated argsR src tpr rSt c).createdParent = dSt.createdParent := by
          rw [hRcp, h3]
        have h4' : (processRelated argsR src tpr rSt c).createdOther = dSt.createdOther := by
          rw [hRco, hdec, hd, if_neg (by simp), h4]
          rfl
        obtain ⟨ext', d1, d2, d3, d4, d5⟩ := ih dSt (processRelated argsR src tpr rSt c) ext
          h1 h2' h3' h4'
          (fun x hx hmx => hdisj x (List.mem_cons_of_mem _ hx) hmx) hndrest
        refine ⟨ext', by rw [hDst]; exact d1, d2, ?_, ?_, ?_⟩
        · rw [hDst]; exact d3
        · rw [hDst]; exact d4
        · intro y hy
          rcases d5 y hy with hmem | ⟨hyr, hym⟩
          · exact Or.inl hmem
          · exact Or.inr ⟨List.mem_cons_of_mem _ hyr, hym⟩
    · have hmpf : mappedPresent src c = false := by
        rwa [Bool.not_eq_true] at hmp
      have hdf : upsertNeeded src dSt.tgt.corr c = false := by
        simp [upsertNeeded, hmpf]
      have hrf : upsertNeeded src rSt.tgt.corr c = false := by
        simp [upsertNeeded, hmpf]
      have hDst : processRelated argsD src tpd dSt c = dSt := by
        rw [hDdry, if_neg (by simp [hdf])]
      have h2' : (processRelated argsR src tpr rSt c).tgt.corr = t0.corr ++ ext := by
        rw [hRcorr, hrf, if_neg (by simp), h2]
      have h3' : (processRelated argsR src tpr rSt c).createdParent = dSt.createdParent := by
        rw [hRcp, h3]
      have h4' : (processRelated argsR src tpr rSt c).createdOther = dSt.createdOther := by
        rw [hRco, hrf, if_neg (by simp), h4]
        rfl
      have hndrest : (rest.filter (fun i => mappedPresent src i)).Nodup := by
        have hfilter : (c :: rest).filter (fun i => mappedPresent src i) =
            rest.filter (fun i => mappedPresent src i) := by
          simp [List.filter_cons, hmpf]
        rwa [hfilter] at hnd
      obtain ⟨ext', d1, d2, d3, d4, d5⟩ := ih dSt (processRelated argsR src tpr rSt c) ext
        h1 h2' h3' h4'
        (fun x hx hmx => hdisj x (List.mem_cons_of_mem _ hx) hmx) hndrest
      refine ⟨ext', by rw [hDst]; exact d1, d2, ?_, ?_, ?_⟩
      · rw [hDst]; exact d3
      · rw [hDst]; exact d4
      · intro y hy
        rcases d5 y hy with hmem | ⟨hyr, hym⟩
        · exact Or.inl hmem
        · exact Or.inr ⟨List.mem_cons_of_mem _ hyr, hym⟩

/-- Parallel simulation of one whole parent step between a dry and a real
run: with the covered ids distinct and fresh, the dry state keeps the
initial target, the created counters stay equal, and the real correlation
map grows only by entries for the step's covered ids. -/
theorem processParent_sim (argsD argsR : Args) (hdryD : argsD.dryRun = true)
    (hdryR : argsR.dryRun = false) (src : List SrcItem) (t0 : TgtState) :
    ∀ (pid : Int) (dSt rSt : EngineSt) (ext : List (Int × Int)),
      dSt.tgt = t0 →
      rSt.tgt.corr = t0.corr ++ ext →
      rSt.createdParent = dSt.createdParent →
      rSt.createdOther = dSt.createdOther →
      (∀ x ∈ coveredIds src pid, x ∉ keys ext) →
      (coveredIds src pid).Nodup →
      ∃ ext',
        (processParent argsD src dSt pid).tgt = t0 ∧
        (processParent argsR src rSt pid).tgt.corr = t0.corr ++ ext' ∧
        (processParent argsR src rSt pid).createdParent =
          (processParent argsD src dSt pid).createdParent ∧
        (processParent argsR src rSt pid).createdOther =
          (processParent argsD src dSt pid).createdOther ∧
        (∀ y ∈ keys ext', y ∈ keys ext ∨ y ∈ coveredIds src pid) := by
  intro pid dSt rSt ext h1 h2 h3 h4 hdisj hnd
  rw [processParent_eq argsD, processParent_eq argsR]
  cases hf : srcFind src pid with
  | none =>
    exact ⟨ext, h1, h2, h3, h4, fun y hy => Or.inl hy⟩
  | some p =>
    simp only [coveredIds, hf] at hdisj hnd
    have hc1 : dSt.tgt.corr = t0.corr := by rw [h1]
    have hpidext : pid ∉ keys ext := hdisj pid (List.mem_cons_self _ _)
    have hDres := (parentRes_proj argsD dSt pid p).2.2.2.2.1 hdryD
    obtain ⟨hRc, hRn, hRcp, hRco, -, hRfound⟩ := parentRes_proj argsR rSt pid p
    have hlookup : rSt.tgt.corr.lookup pid = dSt.tgt.corr.lookup pid := by
      rw [h2, hc1, lookup_append_of_not_mem_keys hpidext]
    obtain ⟨ext1, i1, i2, i3, i4, i5⟩ : ∃ ext1,
        (parentStage2 argsD dSt pid p).tgt = t0 ∧
        (parentStage2 argsR rSt pid p).tgt.corr = t0.corr ++ ext1 ∧
        (parentStage2 argsR rSt pid p).createdParent =
          (parentStage2 argsD dSt pid p).createdParent ∧
        (parentStage2 argsR rSt pid p).createdOther =
          (parentStage2 argsD dSt pid p).createdOther ∧
        (∀ y ∈ keys ext1, y ∈ keys ext ∨ y = pid) := by
      have hs2Dtgt := (parentStage2_proj argsD dSt pid p).1
      have hs2Rtgt := (parentStage2_proj argsR rSt pid p).1
      have hs2Rcp := (parentStage2_proj argsR rSt pid p).2.1
      have hs2Rco := (parentStage2_proj argsR rSt pid p).2.2.1
      have hs2Dcp := (parentStage2_proj argsD dSt pid p).2.1
      have hs2Dco := (parentStage2_proj argsD dSt pid p).2.2.1
      cases hl : dSt.tgt.corr.lookup pid with
      | some ex =>
        have hD1 : (parentRes argsD dSt pid p).1 = dSt := by
          rw [hDres, hl]
          simp
        have hR1 : (parentRes argsR rSt pid p).1 = rSt :=
          hRfound (by rw [hlookup, hl]; rfl)
        refine ⟨ext, ?_, ?_, ?_, ?_, fun y hy => Or.inl hy⟩
        · rw [hs2Dtgt, hD1, h1]
        · rw [hs2Rtgt, hR1, h2]
        · rw [hs2Rcp, hs2Dcp, hR1, hD1, h3]
        · rw [hs2Rco, hs2Dco, hR1, hD1, h4]
      | none =>
        have hD1 : (parentRes argsD dSt pid p).1 =
            { dSt with createdParent := dSt.createdParent + 1 } := by
          rw [hDres, hl]
          simp
        have hlr : rSt.tgt.corr.lookup pid = none := by rw [hlookup, hl]
        refine ⟨ext ++ [(pid, rSt.tgt.nextId)], ?_, ?_, ?_, ?_, ?_⟩
        · rw [hs2Dtgt, hD1]
          exact h1
        · rw [hs2Rtgt, hRc, hlr]
          rw [if_pos (by simp [hdryR])]
          rw [h2, List.append_assoc]
        · rw [hs2Rcp, hs2Dcp, hRcp, hlr, hD1, h3]
          simp
        · rw [hs2Rco, hs2Dco, hRco, hD1, h4]
        · intro y hy
          rw [keys_append] at hy
          rcases List.mem_append.mp hy with hy | hy
          · exact Or.inl hy
          · right
            simpa [keys] using hy
    have hndTail : ((get_children_related p.relations).1.filter
          (fun i => mappedPresent src i) ++
        (get_children_related p.relations).2.filter
          (fun i => mappedPresent src i)).Nodup :=
      hnd.of_cons
    have hpidTail : pid ∉ (get_children_related p.relations).1.filter
          (fun i => mappedPresent src i) ++
        (get_children_related p.relations).2.filter (fun i => mappedPresent src i) :=
      (List.nodup_cons.mp hnd).1
    have hdisjC : ∀ x ∈ (get_children_related p.relations).1,
        mappedPresent src x = true → x ∉ keys ext1 := by
      intro x hx hmx hmem
      have hxf : x ∈ (get_children_related p.relations).1.filter
          (fun i => mappedPresent src i) := List.mem_filter.mpr ⟨hx, hmx⟩
      rcases i5 x hmem with hm | hm
      · exact hdisj x (List.mem_cons_of_mem _ (List.mem_append_left _ hxf)) hm
      · exact hpidTail (hm ▸ List.mem_append_left _ hxf)
    obtain ⟨ext2, j1, j2, j3, j4, j5⟩ := childFold_sim argsD argsR hdryD hdryR src t0
      (parentRes argsD dSt pid p).2 (parentRes argsR rSt pid p).2
      (get_children_related p.relations).1
      (parentStage2 argsD dSt pid p) (parentStage2 argsR rSt pid p) ext1
      i1 i2 i3 i4 hdisjC hndTail.of_append_left
    have hdisjR : ∀ x ∈ (get_children_related p.relations).2,
        mappedPresent src x = true → x ∉ keys ext2 := by
      intro x hx hmx hmem
      have hxf : x ∈ (get_children_related p.relations).2.filter
          (fun i => mappedPresent src i) := List.mem_filter.mpr ⟨hx, hmx⟩
      have hdisjLR := (List.nodup_append.mp hndTail).2.2
      rcases j5 x hmem with hm | ⟨hx1, hmx1⟩
      · rcases i5 x hm with hm' | hm'
        · exact hdisj x (List.mem_cons_of_mem _ (List.mem_append_right _ hxf)) hm'
        · exact hpidTail (hm' ▸ List.mem_append_right _ hxf)
      · exact hdisjLR (List.mem_filter.mpr ⟨hx1, hmx1⟩) hxf
    obtain ⟨ext3, k1, k2, k3, k4, k5⟩ := relatedFold_sim argsD argsR hdryD hdryR src t0
      (parentRes argsD dSt pid p).2 (parentRes argsR rSt pid p).2
      (get_children_related p.relations).2
      ((get_children_related p.relations).1.foldl
        (processChild argsD src (parentRes argsD dSt pid p).2)
        (parentStage2 argsD dSt pid p))
      ((get_children_related p.relations).1.foldl
        (processChild argsR src (parentRes argsR rSt pid p).2)
        (parentStage2 argsR rSt pid p)) ext2
      j1 j2 j3 j4 hdisjR hndTail.of_append_right
    refine ⟨ext3, k1, k2, k3, k4, ?_⟩
    intro y hy
    simp only [coveredIds, hf]
    rcases k5 y hy with hm | ⟨hy2, hmy2⟩
    · rcases j5 y hm with hm' | ⟨hy1, hmy1⟩
      · rcases i5 y hm' with hm'' | hm''
        · exact Or.inl hm''
        · exact Or.inr (hm'' ▸ List.mem_cons_self _ _)
      · exact Or.inr (List.mem_cons_of_mem _
          (List.mem_append_left _ (List.mem_filter.mpr ⟨hy1, hmy1⟩)))
    · exact Or.inr (List.mem_cons_of_mem _
        (List.mem_append_right _ (List.mem_filter.mpr ⟨hy2, hmy2⟩)))

theorem runFold_sim (argsD argsR : Args) (hdryD : argsD.dryRun = true)
    (hdryR : argsR.dryRun = false) (src : List SrcItem) (t0 : TgtState) :
    ∀ (L : List Int) (dSt rSt : EngineSt) (ext : List (Int × Int)),
      dSt.tgt = t0 →
      rSt.tgt.corr = t0.corr ++ ext →
      rSt.createdParent = dSt.createdParent →
      rSt.createdOther = dSt.createdOther →
      (∀ x ∈ (L.map (fun q => coveredIds src q)).flatten, x ∉ keys ext) →
      ((L.map (fun q => coveredIds src q)).flatten).Nodup →
      ((L.foldl (processParent argsR src) rSt).createdParent =
        (L.foldl (processParent argsD src) dSt).createdParent ∧
       (L.foldl (processParent argsR src) rSt).createdOther =
        (L.foldl (processParent argsD src) dSt).createdOther) := by
  intro L
  induction L with
  | nil =>
    intro dSt rSt ext h1 h2 h3 h4 _ _
    exact ⟨h3, h4⟩
  | cons q rest ih =>
    intro dSt rSt ext h1 h2 h3 h4 hdisj hnd
    simp only [List.map_cons, List.flatten_cons] at hdisj hnd
    obtain ⟨hnd1, hnd2, hdisj12⟩ := List.nodup_append.mp hnd
    obtain ⟨ext1, p1, p2, p3, p4, p5⟩ := processParent_sim argsD argsR hdryD hdryR src t0
      q dSt rSt ext h1 h2 h3 h4
      (fun x hx => hdisj x (List.mem_append_left _ hx)) hnd1
    simp only [List.foldl_cons]
    refine ih (processParent argsD src dSt q) (processParent argsR src rSt q) ext1
      p1 p2 p3 p4 ?_ hnd2
    intro x hx hmem
    rcases p5 x hmem with hm | hm
    · exact hdisj x (List.mem_append_right _ hx) hm
    · exact hdisj12 hm hx

/-- All ids one run resolves or creates: for every enumerated parent, the
parent itself and its mapped children and related ids. -/
def touchedIds (P : Nat) (args : Args) (src : List SrcItem) : List Int :=
  ((iterate_parent_ids P src args.maxItems args.startId args.excludeField
      args.excludeValue).map (fun pid => coveredIds src pid)).flatten

/-- The dry-run configuration matching `argsReal`. -/
def argsDry : Args := { argsReal with dryRun := true }

/-- C2 counterexample: the progress counters do NOT take the same values in
a dry run as in a real run over the same source and target: on the spec's
concrete scenario the real run adds one related link (`related_links = 1`)
while the dry run never increments `related_links` (the increment sits
inside the `not args.dry_run` guard at lines 366-368). -/
theorem dry_run_safety_counterexample :
    ¬((runEngine 10 argsDry srcScenario { corr := [], nextId := 1000 }).relatedLinks =
      (runEngine 10 argsReal srcScenario { corr := [], nextId := 1000 }).relatedLinks) := by
  decide

/-- C2 (amended): with dry-run enabled the engine performs zero remote
mutation calls (the trace is empty) and leaves the target state unchanged;
the created-parent and created-other counters still increment on the same
create-branch decisions and take exactly the values of a real run from the
same initial target provided no source id is resolved twice during the run;
but related_links never increments in a dry run (it counts actual link
writes), unlike in a real run. -/
theorem dry_run_amended (P : Nat) (args : Args) (src : List SrcItem) (t0 : TgtState)
    (hdry : args.dryRun = true) :
    (runEngine P args src t0).trace = [] ∧
    (runEngine P args src t0).tgt = t0 ∧
    (runEngine P args src t0).relatedLinks = 0 ∧
    ((touchedIds P args src).Nodup →
      (runEngine P args src t0).createdParent =
        (runEngine P { args with dryRun := false } src t0).createdParent ∧
      (runEngine P args src t0).createdOther =
        (runEngine P { args with dryRun := false } src t0).createdOther) := by
  obtain ⟨d1, d2, d3⟩ := foldl_parent_dry args src hdry
    (iterate_parent_ids P src args.maxItems args.startId args.excludeField args.excludeValue)
    (initSt t0)
  refine ⟨d3, d1, d2, ?_⟩
  intro hnd
  have hsim := runFold_sim args { args with dryRun := false } hdry rfl src t0
    (iterate_parent_ids P src args.maxItems args.startId args.excludeField args.excludeValue)
    (initSt t0) (initSt t0) []
    rfl (by simp [initSt]) rfl rfl (by simp [keys]) hnd
  exact ⟨hsim.1.symm, hsim.2.symm⟩

/-- Witness for the amended C2 at the spec's concrete scenario. -/
theorem dry_run_amended_witness :
    (runEngine 10 argsDry srcScenario { corr := [], nextId := 1000 }).trace = [] ∧
    (runEngine 10 argsDry srcScenario { corr := [], nextId := 1000 }).tgt =
      { corr := [], nextId := 1000 } ∧
    (runEngine 10 argsDry srcScenario { corr := [], nextId := 1000 }).relatedLinks = 0 ∧
    ((runEngine 10 argsDry srcScenario { corr := [], nextId := 1000 }).createdParent =
      (runEngine 10 { argsDry with dryRun := false } srcScenario
        { corr := [], nextId := 1000 }).createdParent ∧
     (runEngine 10 argsDry srcScenario { corr := [], nextId := 1000 }).createdOther =
      (runEngine 10 { argsDry with dryRun := false } srcScenario
        { corr := [], nextId := 1000 }).createdOther) := by
  have h := dry_run_amended 10 argsDry srcScenario { corr := [], nextId := 1000 } rfl
  exact ⟨h.1, h.2.1, h.2.2.1, h.2.2.2 (by decide)⟩

end AdoCopy
